import Mathlib

/-!
Verification development for the layout-reconstruction engine of the
Oduscoconvert repository (PDF → spreadsheet / word-processor converter).

The TypeScript source is shallowly embedded:
  * JS strings are modelled as `List Char` (named `Str`);
  * JS numbers are modelled as `ℚ` (all arithmetic used by the engine is
    +, -, *, /, comparisons, `Math.round/floor/abs/min/max`, which are exact
    on the rationals for the inputs the engine manipulates);
  * `Array.prototype.sort` with a numeric-key comparator is stable, and is
    modelled by `List.insertionSort` with a `≤` key relation (which is also
    stable);
  * JS `Map` iteration order is insertion order; page grouping is modelled
    by first-occurrence key order;
  * optional / falsy-guarded fields (`item.fontSize || 12`,
    `boundaries[i+1] || Infinity`) are modelled with `Option` and explicit
    zero tests, mirroring JS falsiness of `0` and `undefined`;
  * regular expressions are modelled by equivalent explicit character-list
    functions (`\s` is modelled by the common JS whitespace characters;
    case mapping is the ASCII range, which is what every pattern in the
    source exercises).

The functions keep the names of the source functions in
`src/lib/tableExtractor.ts` (`extractTables`, `detectTableRegions`, …),
`src/lib/pdfParser.ts` (`cleanDocumentElements`), and
`src/hooks/usePdfConversion.ts` (`convert`, modelled as `convertCore`).
-/

/-- JS strings are modelled as lists of characters. -/
abbrev Str := List Char

/-- Characters treated as whitespace by JS `trim` and the `\s` regex class
(the ASCII whitespace characters plus no-break space). -/
def isJsSpace (c : Char) : Bool :=
  c = ' ' || c = '\t' || c = '\n' || c = '\x0d' || c = '\x0b' || c = '\x0c' || c = ' '

/-- Decimal digit test, the `\d` regex class. -/
def isDigitChar (c : Char) : Bool :=
  c.isDigit

/-- Word-character test, the `\w` regex class (`[A-Za-z0-9_]`). -/
def isWordChar (c : Char) : Bool :=
  c.isAlpha || c.isDigit || c = '_'

/-- The ASCII lowercase/uppercase letter pairs. -/
def casePairs : List (Char × Char) :=
  [('a', 'A'), ('b', 'B'), ('c', 'C'), ('d', 'D'), ('e', 'E'), ('f', 'F'),
   ('g', 'G'), ('h', 'H'), ('i', 'I'), ('j', 'J'), ('k', 'K'), ('l', 'L'),
   ('m', 'M'), ('n', 'N'), ('o', 'O'), ('p', 'P'), ('q', 'Q'), ('r', 'R'),
   ('s', 'S'), ('t', 'T'), ('u', 'U'), ('v', 'V'), ('w', 'W'), ('x', 'X'),
   ('y', 'Y'), ('z', 'Z')]

/-- ASCII uppercasing of one character, modelling JS `toUpperCase` on the
characters the source manipulates. -/
def jsUpperChar (c : Char) : Char :=
  match casePairs.find? (fun p => p.1 = c) with
  | some p => p.2
  | none => c

/-- ASCII lowercasing of one character, modelling JS `toLowerCase`. -/
def jsLowerChar (c : Char) : Char :=
  match casePairs.find? (fun p => p.2 = c) with
  | some p => p.1
  | none => c

/-- Uppercase a whole string (JS `s.toUpperCase()`). -/
def jsStrUpper (s : Str) : Str :=
  s.map jsUpperChar

/-- Lowercase a whole string (JS `s.toLowerCase()`). -/
def jsStrLower (s : Str) : Str :=
  s.map jsLowerChar

/-- Drop trailing JS whitespace. -/
def dropTrailingSpaces (s : Str) : Str :=
  (s.reverse.dropWhile isJsSpace).reverse

/-- JS `s.trim()`. -/
def jsTrim (s : Str) : Str :=
  dropTrailingSpaces (s.dropWhile isJsSpace)

/-- Test whether `p` is a prefix of `s` (character-wise, Boolean). -/
def isPrefixList : Str → Str → Bool
  | [], _ => true
  | _ :: _, [] => false
  | a :: p, b :: s => a = b && isPrefixList p s

/-- JS `s.includes(p)`: substring containment. -/
def containsSubstr : Str → Str → Bool
  | s, p =>
    if isPrefixList p s then true
    else
      match s with
      | [] => false
      | _ :: s => containsSubstr s p

/-- Case-insensitive substring containment, modelling a `/pat/i` regex test. -/
def containsCI (s p : Str) : Bool :=
  containsSubstr (jsStrLower s) (jsStrLower p)

/-- Join a list of strings with single spaces (JS `arr.join(' ')`). -/
def joinSpace : List Str → Str
  | [] => []
  | [s] => s
  | s :: rest => s ++ ' ' :: joinSpace rest

/-- JS `Math.round` (half toward positive infinity) on the rationals. -/
def mathRound (q : ℚ) : ℚ :=
  ((⌊q + 1 / 2⌋ : ℤ) : ℚ)

/-- JS `Math.abs` on the rationals. -/
def ratAbs (q : ℚ) : ℚ :=
  if q < 0 then -q else q

/-- JS `Math.min(...xs)` over a non-empty list (the engine only calls it on
non-empty clusters). -/
def listMin : List ℚ → ℚ
  | [] => 0
  | x :: xs => xs.foldl min x

/-- JS `Math.max(...xs)` over a non-empty list. -/
def listMax : List ℚ → ℚ
  | [] => 0
  | x :: xs => xs.foldl max x

/-- Natural number of a JS numeric string, via `Nat.toDigits` (decimal,
most-significant first), used for the `Page ${n}` style labels. -/
def natToStr (n : ℕ) : Str :=
  Nat.toDigits 10 n

/-- Whether `parseFloat(s)` yields a finite number, i.e.
`!isNaN(parseFloat(s)) && isFinite(parseFloat(s))`: after optional leading
whitespace and an optional sign, the string must start with a digit, or with
a decimal point followed by a digit (a literal `Infinity` is not finite, and
its first character is not a digit, so it is correctly rejected too). -/
def jsParseFloatFinite (s : Str) : Bool :=
  let t := s.dropWhile isJsSpace
  let u := match t with
           | c :: rest => if c = '+' || c = '-' then rest else t
           | [] => []
  match u with
  | [] => false
  | d :: e =>
    isDigitChar d ||
      (d = '.' && (match e with
                   | f :: _ => isDigitChar f
                   | [] => false))

/-!
Data model of `src/lib/types.ts` (the fields the engine reads).
-/

/-- One positioned text fragment produced by the PDF decoder
(`TextItem` in `src/lib/types.ts`). -/
structure TextItem where
  str : Str
  x : ℚ
  y : ℚ
  width : ℚ
  height : ℚ
  page : ℕ
  fontName : Option Str
  fontSize : Option ℚ
deriving DecidableEq, Repr

/-- JS `item.fontSize || 12`: `undefined` and `0` are falsy. -/
def fontSizeOr12 (f : Option ℚ) : ℚ :=
  match f with
  | none => 12
  | some v => if v = 0 then 12 else v

/-- Key relation for sorting fragments left-to-right
(`(a, b) => a.x - b.x`). -/
def leX (a b : TextItem) : Prop :=
  a.x ≤ b.x

/-- Key relation for sorting fragments top-to-bottom
(`(a, b) => a.y - b.y`). -/
def leY (a b : TextItem) : Prop :=
  a.y ≤ b.y

instance : DecidableRel leX := fun a b => inferInstanceAs (Decidable (a.x ≤ b.x))

instance : DecidableRel leY := fun a b => inferInstanceAs (Decidable (a.y ≤ b.y))

instance : IsTotal TextItem leX := ⟨fun a b => le_total a.x b.x⟩

instance : IsTrans TextItem leX := ⟨fun _ _ _ h₁ h₂ => le_trans h₁ h₂⟩

instance : IsTotal TextItem leY := ⟨fun a b => le_total a.y b.y⟩

instance : IsTrans TextItem leY := ⟨fun _ _ _ h₁ h₂ => le_trans h₁ h₂⟩

/-- Stable sort of fragments by x (JS `[...items].sort((a, b) => a.x - b.x)`). -/
def sortByX (items : List TextItem) : List TextItem :=
  items.insertionSort leX

/-- Stable sort of fragments by y (JS `[...items].sort((a, b) => a.y - b.y)`). -/
def sortByY (items : List TextItem) : List TextItem :=
  items.insertionSort leY

/-- Ascending sort of rationals (JS `.sort((a, b) => a - b)`). -/
def sortRat (l : List ℚ) : List ℚ :=
  l.insertionSort (· ≤ ·)

/-!
Embedding of `src/lib/tableExtractor.ts` (the region-aware generation of the
table extractor, `src/unnamed/part_007`).
-/

/-- Y-coordinate tolerance for grouping items into rows. -/
def ROW_TOLERANCE : ℚ := 5

/-- Minimum rows to be considered a table. -/
def MIN_TABLE_ROWS : ℕ := 2

/-- Minimum columns to be considered a table. -/
def MIN_TABLE_COLS : ℕ := 2

/-- Minimum gap between columns. -/
def MIN_COL_GAP : ℚ := 15

/-- A row of fragments sharing a baseline (`interface Row`). -/
structure Row where
  y : ℚ
  items : List TextItem
  avgHeight : ℚ
deriving DecidableEq, Repr

/-- A contiguous tabular region plus the letterhead rows captured before it
(`interface TableRegion`). -/
structure TableRegion where
  startY : ℚ
  endY : ℚ
  rows : List Row
  letterheadRows : List Row
deriving DecidableEq, Repr

/-- Column type tags of `detectColumnType`. -/
inductive ColType where
  | text
  | number
  | currency
  | date
  | mixed
deriving DecidableEq, Repr

/-- Per-table metadata (`interface TableMetadata`). -/
structure TableMetadata where
  hasDetectedHeader : Bool
  columnTypes : List ColType
  columnCurrencySymbols : List (Option Str)
  totalRows : ℕ
  totalCols : ℕ
deriving DecidableEq, Repr

/-- Finalized extracted table (`EnhancedExtractedTable`; the unused optional
`title`/`headers` fields of the base interface are never written by the
extractor and are omitted). -/
structure EnhancedExtractedTable where
  rows : List (List Str)
  source : Str
  pageNumber : ℕ
  metadata : TableMetadata
  headerRow : Option (List Str)
  letterhead : Option (List Str)
deriving DecidableEq, Repr

/-- Walk state of `groupIntoRows`: the rows already closed and the row being
built (in the source the current row is aliased inside the output array and
mutated in place; functionally it is kept out of the accumulator until the
next row starts). -/
def groupIntoRowsLoop : List Row → Option Row → List TextItem → List Row
  | acc, cur, [] => acc ++ cur.toList
  | acc, none, item :: rest =>
      groupIntoRowsLoop acc (some ⟨item.y, [item], item.height⟩) rest
  | acc, some r, item :: rest =>
      if ratAbs (item.y - r.y) > ROW_TOLERANCE then
        groupIntoRowsLoop (acc ++ [r]) (some ⟨item.y, [item], item.height⟩) rest
      else
        let n : ℚ := (r.items.length : ℚ) + 1
        groupIntoRowsLoop acc
          (some ⟨r.y, r.items ++ [item], (r.avgHeight * (n - 1) + item.height) / n⟩) rest

/-- Group fragments into rows by y-coordinate, then sort each row's items by
x (`groupIntoRows`). -/
def groupIntoRows (items : List TextItem) : List Row :=
  let rows := groupIntoRowsLoop [] none (sortByY items)
  rows.map (fun r => { r with items := sortByX r.items })

/-- Gaps between consecutive items of a row, left to right
(`getGapsBetweenItems`). -/
def getGapsBetweenItems (items : List TextItem) : List ℚ :=
  if items.length < 2 then []
  else
    let sorted := sortByX items
    (sorted.zip sorted.tail).map (fun ab => ab.2.x - (ab.1.x + ab.1.width))

/-- Alignment of a row's rounded x-positions with its vertical neighbors
(`calculateAlignmentWithNeighbors`): the fraction of (neighbor, x) checks
where some neighbor item starts within 10 units of x. -/
def calculateAlignmentWithNeighbors (row : Row) (neighbors : List Row) : ℚ :=
  let rowXPositions := row.items.map (fun item => mathRound (item.x / 5) * 5)
  let totalChecks : ℕ := neighbors.length * rowXPositions.length
  let totalMatches : ℕ :=
    (neighbors.map (fun neighbor =>
      let neighborXPositions := neighbor.items.map (fun item => mathRound (item.x / 5) * 5)
      (rowXPositions.filter
        (fun x => neighborXPositions.any (fun nx => ratAbs (nx - x) ≤ 10))).length)).sum
  if totalChecks > 0 then (totalMatches : ℚ) / (totalChecks : ℚ) else 0

/-- Content test of check 5 of `scoreRowAsTableRow`:
`/^\d+[\d,.\-\/]*$/` (a digit followed by digits, commas, dots, minus or
slash characters). -/
def looksNumericDateLike (text : Str) : Bool :=
  match text with
  | [] => false
  | c :: rest =>
    isDigitChar c &&
      rest.all (fun ch => isDigitChar ch || ch = ',' || ch = '.' || ch = '-' || ch = '/')

/-- Content test of check 5 of `scoreRowAsTableRow`: `/^\d{4,}$/`. -/
def looksAccountNumberLike (text : Str) : Bool :=
  text.length ≥ 4 && text.all isDigitChar

/-- Score how likely a row is part of a table, 0 to 1
(`scoreRowAsTableRow`). -/
def scoreRowAsTableRow (row : Row) (allRows : List Row) (rowIndex : ℕ) : ℚ :=
  let score1 : ℚ := if row.items.length ≥ 2 then 3 / 10 else 0
  let score2 : ℚ := if row.items.length ≥ 3 then 2 / 10 else 0
  let gaps := getGapsBetweenItems row.items
  let hasConsistentGaps := gaps.length > 0 && gaps.any (fun g => g ≥ MIN_COL_GAP)
  let score3 : ℚ := if hasConsistentGaps then 3 / 10 else 0
  let neighborRows :=
    (if rowIndex = 0 then [] else (allRows.get? (rowIndex - 1)).toList) ++
      (allRows.get? (rowIndex + 1)).toList
  let score4 : ℚ :=
    if neighborRows.length > 0 then
      calculateAlignmentWithNeighbors row neighborRows * (2 / 10)
    else 0
  let avgFontSize : ℚ :=
    (row.items.map (fun item => fontSizeOr12 item.fontSize)).sum / (row.items.length : ℚ)
  let isSingleCenteredText := row.items.length = 1
  let score5 : ℚ := if isSingleCenteredText || avgFontSize > 14 then -(3 / 10) else 0
  let hasDataContent :=
    row.items.any (fun item =>
      let text := jsTrim item.str
      looksNumericDateLike text || looksAccountNumberLike text || text.length < 50)
  let score6 : ℚ := if hasDataContent then 1 / 10 else 0
  min (max (score1 + score2 + score3 + score4 + score5 + score6) 0) 1

/-- Walk state of `detectTableRegions`. -/
structure RegionState where
  regions : List TableRegion
  current : Option TableRegion
  letterhead : List Row
deriving Repr

/-- One step of the `detectTableRegions` walk over the indexed rows. -/
def detectTableRegionsStep (allRows : List Row) (st : RegionState) (ir : ℕ × Row) : RegionState :=
  let i := ir.1
  let row := ir.2
  let rowScore := scoreRowAsTableRow row allRows i
  if rowScore ≥ 1 / 2 then
    match st.current with
    | none =>
        { regions := st.regions
          current := some ⟨row.y, row.y, [row], st.letterhead⟩
          letterhead := [] }
    | some r =>
        { regions := st.regions
          current := some { r with endY := row.y, rows := r.rows ++ [row] }
          letterhead := st.letterhead }
  else
    match st.current with
    | some r =>
        if r.rows.length ≥ MIN_TABLE_ROWS then
          { regions := st.regions ++ [r], current := none, letterhead := [] }
        else
          { regions := st.regions, current := none, letterhead := st.letterhead }
    | none =>
        { regions := st.regions, current := none, letterhead := st.letterhead ++ [row] }

/-- Detect contiguous table-like regions and their letterhead rows
(`detectTableRegions`). -/
def detectTableRegions (rows : List Row) : List TableRegion :=
  if rows.length < MIN_TABLE_ROWS then []
  else
    let st := rows.enum.foldl (detectTableRegionsStep rows) ⟨[], none, []⟩
    st.regions ++
      (match st.current with
       | some r => if r.rows.length ≥ MIN_TABLE_ROWS then [r] else []
       | none => [])

/-- Grouping walk of `clusterXPositions`: positions within 10 units of the
previous one stay in the current cluster, larger gaps start a new one. -/
def clusterLoop : ℚ → List ℚ → List (List ℚ) → List ℚ → List (List ℚ)
  | _, current, acc, [] => acc ++ [current]
  | prev, current, acc, x :: rest =>
    if x - prev ≤ 10 then clusterLoop x (current ++ [x]) acc rest
    else clusterLoop x [x] (acc ++ [current]) rest

/-- Cluster x-positions with a simple gap-based algorithm and return each
cluster's minimum (`clusterXPositions`). -/
def clusterXPositions (positions : List ℚ) : List ℚ :=
  match positions with
  | [] => []
  | _ =>
    match sortRat positions with
    | [] => []
    | s :: rest => (clusterLoop s [s] [] rest).map listMin

/-- Detect column boundaries for a table region
(`detectColumnBoundariesForRegion`). -/
def detectColumnBoundariesForRegion (rows : List Row) : List ℚ :=
  let positions : List (ℚ × ℚ) :=
    rows.flatMap (fun row => row.items.map (fun item => (item.x, item.x + item.width)))
  if positions.length = 0 then []
  else
    let clusters := clusterXPositions (positions.map (fun p => p.1))
    sortRat clusters

/-- Membership loop of `assignItemsToColumns`: the first column index whose
interval `[boundary[i] - 10, boundary[i+1] - 10)` contains `x`, where a
missing or zero next boundary (`boundaries[i+1] || Infinity`) means an
unbounded interval. -/
def findColIndexAux (x : ℚ) : List ℚ → Option ℕ
  | [] => none
  | b :: rest =>
    let endOk :=
      match rest with
      | [] => true
      | b2 :: _ => if b2 = 0 then true else decide (x < b2 - 10)
    if decide (x ≥ b - 10) && endOk then some 0
    else (findColIndexAux x rest).map (· + 1)

/-- Fallback of `assignItemsToColumns`: the index of the boundary closest to
`x` (first minimum wins; `-1` when there are no boundaries). -/
def nearestColIndex (x : ℚ) (boundaries : List ℚ) : ℤ :=
  let final :=
    boundaries.foldl
      (fun (st : Option ℚ × ℤ × ℕ) b =>
        let dist := ratAbs (x - b)
        match st.1 with
        | none => (some dist, (st.2.2 : ℤ), st.2.2 + 1)
        | some m =>
          if dist < m then (some dist, (st.2.2 : ℤ), st.2.2 + 1)
          else (some m, st.2.1, st.2.2 + 1))
      (none, -1, 0)
  final.2.1

/-- One fragment-assignment step of `assignItemsToColumns`. -/
def assignItemStep (boundaries : List ℚ) (cells : List Str) (item : TextItem) : List Str :=
  let colIndex : ℤ :=
    match findColIndexAux item.x boundaries with
    | some i => (i : ℤ)
    | none => nearestColIndex item.x boundaries
  if 0 ≤ colIndex ∧ colIndex.toNat < cells.length then
    let i := colIndex.toNat
    let old := cells.getD i []
    cells.set i (if old ≠ [] then old ++ ' ' :: item.str else item.str)
  else cells

/-- Assign a row's fragments to columns and concatenate per cell
(`assignItemsToColumns`). -/
def assignItemsToColumns (items : List TextItem) (boundaries : List ℚ) : List Str :=
  let cells : List Str := List.replicate boundaries.length []
  let final := (sortByX items).foldl (assignItemStep boundaries) cells
  final.map jsTrim

/-- Drop columns that are empty in every row (`dropEmptyColumns`). -/
def dropEmptyColumns (rows : List (List Str)) : List (List Str) :=
  if rows.length = 0 then rows
  else
    let numCols : ℕ := rows.foldr (fun r m => max r.length m) 0
    let columnsToKeep :=
      (List.range numCols).filter
        (fun col => rows.any (fun row => jsTrim (row.getD col []) ≠ []))
    rows.map (fun row => columnsToKeep.map (fun colIndex => row.getD colIndex []))

/-- Characters removed by the `/[$₦€£,\s%]/g` cleanup before numeric parsing
in `getNumericRatio` and `isHeaderLike`. -/
def isCurrencyJunkChar (c : Char) : Bool :=
  c = '$' || c = '₦' || c = '€' || c = '£' || c = ',' || isJsSpace c || c = '%'

/-- Strip currency symbols, commas, whitespace and percent signs
(the `.replace(/[$₦€£,\s%]/g, '')` cleanup). -/
def cleanCurrencyChars (s : Str) : Str :=
  s.filter (fun c => !isCurrencyJunkChar c)

/-- Fraction of a row's non-empty cells that parse as finite numbers after
the currency cleanup (`getNumericRatio`). -/
def getNumericRatio (row : List Str) : ℚ :=
  let nonEmptyCells := row.filter (fun c => jsTrim c ≠ [])
  if nonEmptyCells.length = 0 then 0
  else
    let numericCells := nonEmptyCells.filter (fun cell => jsParseFloatFinite (cleanCurrencyChars cell))
    (numericCells.length : ℚ) / (nonEmptyCells.length : ℚ)

/-- Whether a string starts with a capitalization-stable character
(JS `text[0] === text[0].toUpperCase()`). -/
def firstCharCapital (text : Str) : Bool :=
  match text with
  | [] => false
  | c :: _ => c = jsUpperChar c

/-- Whether a cell looks like a header label (`isHeaderLike`): non-blank,
at most 40 characters, starting with a capital (or all caps), and not a
number once currency characters are stripped. -/
def isHeaderLike (text : Str) : Bool :=
  if jsTrim text = [] then false
  else if text.length ≤ 40 then
    if firstCharCapital text || text = jsStrUpper text then
      !jsParseFloatFinite (cleanCurrencyChars text)
    else false
  else false

/-- Header keywords of check 4 of `detectHeader`. -/
def headerKeywords : List Str :=
  [("id").toList, ("name").toList, ("date").toList, ("amount").toList,
   ("total").toList, ("description").toList, ("type").toList,
   ("status").toList, ("number").toList, ("no").toList, ("qty").toList,
   ("quantity").toList, ("price").toList, ("value").toList,
   ("code").toList, ("ref").toList, ("account").toList, ("rate").toList,
   ("customer").toList, ("int").toList]

/-- Result of `detectHeader`. -/
structure HeaderInfo where
  isHeader : Bool
  confidence : ℚ
deriving DecidableEq, Repr

/-- Check 1 of `detectHeader`: first row has a low numeric-token ratio while
the remaining rows average a materially higher one (labels vs data). -/
def headerScore1 (firstRow : List Str) (restRows : List (List Str)) : ℚ :=
  let firstRowNumericRatio := getNumericRatio firstRow
  let restNumericRatios := restRows.map getNumericRatio
  let avgRestNumericRatio := restNumericRatios.sum / (restNumericRatios.length : ℚ)
  if firstRowNumericRatio < 3 / 10 ∧ avgRestNumericRatio > 3 / 10 then 2 else 0

/-- Check 2 of `detectHeader`: a majority of first-row cells look like
header labels. -/
def headerScore2 (firstRow : List Str) : ℚ :=
  let headerLikeCount := (firstRow.filter isHeaderLike).length
  if (headerLikeCount : ℚ) > (firstRow.length : ℚ) * (5 / 10) then 3 / 2 else 0

/-- Check 3 of `detectHeader`: no empty cells in the first row while data
rows average some emptiness. -/
def headerScore3 (firstRow : List Str) (restRows : List (List Str)) : ℚ :=
  let firstRowEmptyCount := (firstRow.filter (fun c => jsTrim c = [])).length
  let avgEmptyInRest : ℚ :=
    ((restRows.map (fun row => ((row.filter (fun c => jsTrim c = [])).length : ℚ))).sum) /
      (restRows.length : ℚ)
  if firstRowEmptyCount = 0 ∧ avgEmptyInRest > 0 then 5 / 10 else 0

/-- Check 4 of `detectHeader`: some first-row cell contains a known header
keyword (case-insensitive substring). -/
def headerScore4 (firstRow : List Str) : ℚ :=
  if firstRow.any (fun cell => headerKeywords.any (fun kw => containsSubstr (jsStrLower cell) kw))
  then 1 else 0

/-- The weighted header score of `detectHeader` (maximum 5). -/
def headerScore (firstRow : List Str) (restRows : List (List Str)) : ℚ :=
  headerScore1 firstRow restRows + headerScore2 firstRow +
    headerScore3 firstRow restRows + headerScore4 firstRow

/-- Score whether the first row of a grid is a header (`detectHeader`). -/
def detectHeader (rows : List (List Str)) : HeaderInfo :=
  match rows with
  | [] => ⟨false, 0⟩
  | [_] => ⟨false, 0⟩
  | firstRow :: restRows =>
    let score := headerScore firstRow restRows
    let maxScore : ℚ := 5
    ⟨decide (score ≥ 2), min (score / maxScore) 1⟩

/-- Currency glyph class `[₦$€£]`. -/
def isCurrencyGlyph (c : Char) : Bool :=
  c = '₦' || c = '$' || c = '€' || c = '£'

/-- Match `[\d,]+\.?\d*` against the whole string: a non-empty run of digits
and commas, an optional decimal point, then optional digits. -/
def matchNumCore (s : Str) : Bool :=
  let pre := s.takeWhile (fun c => isDigitChar c || c = ',')
  let rest := s.dropWhile (fun c => isDigitChar c || c = ',')
  pre ≠ [] &&
    (match rest with
     | [] => true
     | c :: tail => c = '.' && tail.all isDigitChar)

/-- Match `[\d,]+\.?\d*` followed by `\s*` and an optional currency glyph
(the second alternative of the currency regex in `detectColumnType`). -/
def matchNumCoreSpaceGlyph (s : Str) : Bool :=
  let pre := s.takeWhile (fun c => isDigitChar c || c = ',')
  let rest := s.dropWhile (fun c => isDigitChar c || c = ',')
  let afterDot :=
    match rest with
    | '.' :: tail => some (tail.dropWhile isDigitChar)
    | _ => some rest
  pre ≠ [] &&
    (match afterDot with
     | some r =>
       let r2 := r.dropWhile isJsSpace
       match r2 with
       | [] => true
       | [g] => isCurrencyGlyph g
       | _ => false
     | none => false)

/-- The currency value regex of `detectColumnType`:
`/^[₦$€£][\d,]+\.?\d*$|^[\d,]+\.?\d*\s*[₦$€£]?$|^=N=\s*[\d,]+\.?\d*$/i`. -/
def matchCurrencyPattern (value : Str) : Bool :=
  (match value with
   | c :: rest => isCurrencyGlyph c && matchNumCore rest
   | [] => false) ||
  matchNumCoreSpaceGlyph value ||
  (match value with
   | '=' :: n :: '=' :: rest =>
     (n = 'N' || n = 'n') && matchNumCore (rest.dropWhile isJsSpace)
   | _ => false)

/-- The currency membership regex of `detectColumnType`:
`/[₦$€£]|NGN|USD|EUR|GBP|=N=/i`. -/
def containsCurrencyMark (value : Str) : Bool :=
  value.any isCurrencyGlyph ||
  containsCI value (("NGN").toList) ||
  containsCI value (("USD").toList) ||
  containsCI value (("EUR").toList) ||
  containsCI value (("GBP").toList) ||
  containsCI value (("=N=").toList)

/-- Date pattern `/^\d{1,2}[\/\-]\w{3}[\/\-]\d{2,4}$/i` (e.g. 24-Dec-2025). -/
def matchDateMonthName (value : Str) : Bool :=
  let d1 := value.takeWhile isDigitChar
  let r1 := value.dropWhile isDigitChar
  (d1.length = 1 || d1.length = 2) &&
    (match r1 with
     | sep1 :: rest1 =>
       (sep1 = '/' || sep1 = '-') &&
         (let w := rest1.take 3
          let r2 := rest1.drop 3
          w.length = 3 && w.all isWordChar &&
            (match r2 with
             | sep2 :: rest2 =>
               (sep2 = '/' || sep2 = '-') &&
                 (rest2.length ≥ 2 && rest2.length ≤ 4 && rest2.all isDigitChar)
             | [] => false))
     | [] => false)

/-- Date pattern `/^\d{1,2}[\/\-]\d{1,2}[\/\-]\d{2,4}$/` (e.g. 24/12/2025). -/
def matchDateNumeric (value : Str) : Bool :=
  let d1 := value.takeWhile isDigitChar
  let r1 := value.dropWhile isDigitChar
  (d1.length = 1 || d1.length = 2) &&
    (match r1 with
     | sep1 :: rest1 =>
       (sep1 = '/' || sep1 = '-') &&
         (let d2 := rest1.takeWhile isDigitChar
          let r2 := rest1.dropWhile isDigitChar
          (d2.length = 1 || d2.length = 2) &&
            (match r2 with
             | sep2 :: rest2 =>
               (sep2 = '/' || sep2 = '-') &&
                 (rest2.length ≥ 2 && rest2.length ≤ 4 && rest2.all isDigitChar)
             | [] => false))
     | [] => false)

/-- Date pattern `/^\d{4}[\/\-]\d{1,2}[\/\-]\d{1,2}$/` (e.g. 2025-12-24). -/
def matchDateIso (value : Str) : Bool :=
  let d1 := value.takeWhile isDigitChar
  let r1 := value.dropWhile isDigitChar
  d1.length = 4 &&
    (match r1 with
     | sep1 :: rest1 =>
       (sep1 = '/' || sep1 = '-') &&
         (let d2 := rest1.takeWhile isDigitChar
          let r2 := rest1.dropWhile isDigitChar
          (d2.length = 1 || d2.length = 2) &&
            (match r2 with
             | sep2 :: rest2 =>
               (sep2 = '/' || sep2 = '-') &&
                 (rest2.length ≥ 1 && rest2.length ≤ 2 && rest2.all isDigitChar)
             | [] => false))
     | [] => false)

/-- Number pattern `/^-?[\d,]+\.?\d*%?$/` applied to the value with all
whitespace removed. -/
def matchNumberPattern (value : Str) : Bool :=
  let v := value.filter (fun c => !isJsSpace c)
  let w := match v with
           | '-' :: rest => rest
           | _ => v
  let pre := w.takeWhile (fun c => isDigitChar c || c = ',')
  let rest := w.dropWhile (fun c => isDigitChar c || c = ',')
  let afterDot :=
    match rest with
    | '.' :: tail => tail.dropWhile isDigitChar
    | _ => rest
  pre ≠ [] && (afterDot = [] || afterDot = ['%'])

/-- Classification of one non-empty cell value inside the `forEach` of
`detectColumnType` (exactly one counter is incremented per value). -/
inductive CellClass where
  | currency
  | date
  | number
  | text
deriving DecidableEq, Repr

/-- Which counter of `detectColumnType` a value increments. -/
def classifyCell (value : Str) : CellClass :=
  if matchCurrencyPattern value || containsCurrencyMark value then .currency
  else if matchDateMonthName value || matchDateNumeric value || matchDateIso value then .date
  else if matchNumberPattern value then .number
  else .text

/-- Infer a column's semantic type from its values (`detectColumnType`). -/
def detectColumnType (values : List Str) : ColType :=
  let nonEmpty := values.filter (fun v => jsTrim v ≠ [])
  if nonEmpty.length = 0 then .text
  else
    let currencyCount := (nonEmpty.filter (fun v => classifyCell v = .currency)).length
    let dateCount := (nonEmpty.filter (fun v => classifyCell v = .date)).length
    let numberCount := (nonEmpty.filter (fun v => classifyCell v = .number)).length
    let textCount := (nonEmpty.filter (fun v => classifyCell v = .text)).length
    let total := nonEmpty.length
    let threshold : ℚ := 5 / 10
    if (currencyCount : ℚ) / (total : ℚ) ≥ threshold then .currency
    else if (dateCount : ℚ) / (total : ℚ) ≥ threshold then .date
    else if (numberCount : ℚ) / (total : ℚ) ≥ threshold then .number
    else if (textCount : ℚ) / (total : ℚ) ≥ threshold then .text
    else .mixed

/-- The ordered currency pattern table of `detectCurrencySymbol`: a symbol
name and its match test, in source order. -/
def currencyPatterns : List (Str × (Str → Bool)) :=
  [ (("₦").toList, fun v => v.any (fun c => c = '₦')),
    (("NGN").toList, fun v => containsCI v (("NGN").toList)),
    (("=N=").toList, fun v => containsSubstr v (("=N=").toList)),
    (("$").toList, fun v => v.any (fun c => c = '$')),
    (("USD").toList, fun v => containsCI v (("USD").toList)),
    (("€").toList, fun v => v.any (fun c => c = '€')),
    (("EUR").toList, fun v => containsCI v (("EUR").toList)),
    (("£").toList, fun v => v.any (fun c => c = '£')),
    (("GBP").toList, fun v => containsCI v (("GBP").toList)) ]

/-- Normalization applied when a pattern matches: locale variants map to one
canonical glyph per currency. -/
def normalizeCurrencySymbol (symbol : Str) : Str :=
  if symbol = ("NGN").toList ∨ symbol = ("=N=").toList then ("₦").toList
  else if symbol = ("USD").toList then ("$").toList
  else if symbol = ("EUR").toList then ("€").toList
  else if symbol = ("GBP").toList then ("£").toList
  else symbol

/-- Loop of `detectCurrencySymbol`: return the normalized symbol of the
first pattern matching at least one value. -/
def detectCurrencySymbolLoop (values : List Str) : List (Str × (Str → Bool)) → Option Str
  | [] => none
  | (symbol, pattern) :: rest =>
    let matchCount := (values.filter (fun v => pattern v)).length
    if matchCount > 0 then some (normalizeCurrencySymbol symbol)
    else detectCurrencySymbolLoop values rest

/-- Detect the currency symbol used in a column's values
(`detectCurrencySymbol`). -/
def detectCurrencySymbol (values : List Str) : Option Str :=
  detectCurrencySymbolLoop values currencyPatterns

/-- Modelled from the spec (section 4.5): the currency-symbol detector
described by the specification text — test each known currency pattern
against the column's values in a fixed priority order, return the canonical
glyph of the first matching pattern, and return no symbol when none match.
Used only to compare against the source's `detectCurrencySymbol`. -/
def detectCurrencySymbolSpec (values : List Str) : Option Str :=
  (currencyPatterns.find? (fun sp => values.any (fun v => sp.2 v))).map
    (fun sp => normalizeCurrencySymbol sp.1)

/-- Compute per-table metadata (`analyzeTableMetadata`). -/
def analyzeTableMetadata (rows : List (List Str)) (hasHeader : Bool) : TableMetadata :=
  let dataRows := if hasHeader then rows.tail else rows
  let numCols : ℕ := rows.foldr (fun r m => max r.length m) 0
  let perCol :=
    (List.range numCols).map (fun col =>
      let columnValues := dataRows.map (fun row => row.getD col [])
      let colType := detectColumnType columnValues
      (colType, if colType = ColType.currency then detectCurrencySymbol columnValues else none))
  { hasDetectedHeader := hasHeader
    columnTypes := perCol.map (fun p => p.1)
    columnCurrencySymbols := perCol.map (fun p => p.2)
    totalRows := rows.length
    totalCols := numCols }

/-- Page keys in first-occurrence order (a JS `Map` keyed by page preserves
insertion order; `forEach` iterates it in that order). -/
def pageKeys (items : List TextItem) : List ℕ :=
  items.foldl (fun acc item => if item.page ∈ acc then acc else acc ++ [item.page]) []

/-- Fragments of one page, in original order (values appended per key). -/
def pageGroup (items : List TextItem) (p : ℕ) : List TextItem :=
  items.filter (fun item => item.page = p)

/-- Letterhead lines of a region: each letterhead row's items sorted by x,
joined with spaces, trimmed, empty lines removed. -/
def letterheadLines (region : TableRegion) : List Str :=
  (region.letterheadRows.map (fun row =>
    jsTrim (joinSpace ((sortByX row.items).map (fun item => item.str))))).filter
    (fun t => t.length > 0)

/-- Process one region of one page in the primary pass of `extractTables`:
thread the `(tables, tableIndex)` state exactly as the source does (the
index is incremented before the cleaned-columns check, so it advances even
when the push is skipped). -/
def extractTablesRegionStep (pageNum : ℕ)
    (st : List EnhancedExtractedTable × ℕ) (region : TableRegion) :
    List EnhancedExtractedTable × ℕ :=
  let columnBoundaries := detectColumnBoundariesForRegion region.rows
  if columnBoundaries.length ≥ MIN_TABLE_COLS then
    let tableRows := region.rows.map (fun row => assignItemsToColumns row.items columnBoundaries)
    let filteredRows :=
      tableRows.filter (fun row =>
        (row.filter (fun cell => jsTrim cell ≠ [])).length ≥ max 1 (MIN_TABLE_COLS - 1))
    if filteredRows.length ≥ MIN_TABLE_ROWS then
      let tableIndex := st.2 + 1
      let cleanedRows := dropEmptyColumns filteredRows
      if cleanedRows.length > 0 ∧ (cleanedRows.headD []).length ≥ MIN_TABLE_COLS then
        let headerInfo := detectHeader cleanedRows
        let metadata := analyzeTableMetadata cleanedRows headerInfo.isHeader
        let letterhead := letterheadLines region
        (st.1 ++
          [{ rows := cleanedRows
             source := ("Page ").toList ++ natToStr pageNum ++ (", Table ").toList ++ natToStr tableIndex
             pageNumber := pageNum
             metadata := metadata
             headerRow := if headerInfo.isHeader then some (cleanedRows.headD []) else none
             letterhead := if letterhead.length > 0 then some letterhead else none }],
         tableIndex)
      else (st.1, tableIndex)
    else st
  else st

/-- Primary (region-based) pass of `extractTables` over all pages. -/
def extractTablesPrimary (textItems : List TextItem) : List EnhancedExtractedTable :=
  let final :=
    (pageKeys textItems).foldl
      (fun (st : List EnhancedExtractedTable × ℕ) pageNum =>
        let items := pageGroup textItems pageNum
        let rows := groupIntoRows items
        let tableRegions := detectTableRegions rows
        tableRegions.foldl (extractTablesRegionStep pageNum) st)
      ([], 0)
  final.1

/-- Split a row into columns at gaps of at least `MIN_COL_GAP`
(`splitRowByGaps`). -/
def splitRowByGapsLoop : Str → List Str → List (TextItem × TextItem) → List Str
  | currentColumn, columns, [] => columns ++ [jsTrim currentColumn]
  | currentColumn, columns, (prev, curr) :: rest =>
    let gap := curr.x - (prev.x + prev.width)
    if gap ≥ MIN_COL_GAP then
      splitRowByGapsLoop curr.str (columns ++ [jsTrim currentColumn]) rest
    else
      splitRowByGapsLoop (currentColumn ++ ' ' :: curr.str) columns rest

/-- Split a row's items into column strings by inter-item gaps
(`splitRowByGaps`). -/
def splitRowByGaps (items : List TextItem) : List Str :=
  match items with
  | [] => []
  | [item] => [item.str]
  | _ =>
    let sorted := sortByX items
    match sorted with
    | [] => []
    | first :: rest => splitRowByGapsLoop first.str [] (sorted.zip rest)

/-- Alternative extraction for documents without clear table structure
(`extractTablesAlternative`). -/
def extractTablesAlternative (textItems : List TextItem) : List EnhancedExtractedTable :=
  (pageKeys textItems).foldl
    (fun tables pageNum =>
      let items := pageGroup textItems pageNum
      let rows := groupIntoRows items
      let tableRows :=
        (rows.filter (fun row =>
          (getGapsBetweenItems row.items).any (fun g => g ≥ MIN_COL_GAP) ||
            row.items.length ≥ 2)).map (fun row => splitRowByGaps row.items)
      if tableRows.length ≥ MIN_TABLE_ROWS then
        let maxCols : ℕ := tableRows.foldr (fun r m => max r.length m) 0
        let normalizedRows :=
          tableRows.map (fun row => row ++ List.replicate (maxCols - row.length) [])
        let cleanedRows := dropEmptyColumns normalizedRows
        if cleanedRows.length > 0 ∧ (cleanedRows.headD []).length ≥ MIN_TABLE_COLS then
          let headerInfo := detectHeader cleanedRows
          let metadata := analyzeTableMetadata cleanedRows headerInfo.isHeader
          tables ++
            [{ rows := cleanedRows
               source := ("Page ").toList ++ natToStr pageNum
               pageNumber := pageNum
               metadata := metadata
               headerRow := if headerInfo.isHeader then some (cleanedRows.headD []) else none
               letterhead := none }]
        else tables
      else tables)
    []

/-- Extract tables from the positioned fragments (`extractTables`): the
region-based primary pass, falling back to the aggressive alternative pass
when the primary pass found nothing. -/
def extractTables (textItems : List TextItem) : List EnhancedExtractedTable :=
  let tables := extractTablesPrimary textItems
  if tables.length = 0 then tables ++ extractTablesAlternative textItems
  else tables

/-!
Embedding of the document-element cleanup pass of `src/lib/pdfParser.ts`
(`cleanDocumentElements`, `src/unnamed/part_011`).
-/

/-- Element kind tags of `DocumentElement` in `src/lib/types.ts`. -/
inductive ElementType where
  | title
  | heading
  | subheading
  | paragraph
  | bullet
  | numbered
  | tableHeader
  | tableCell
  | whitespace
  | table
  | image
deriving DecidableEq, Repr

/-- One document-outline element (the fields read by
`cleanDocumentElements`; presentation-only fields such as font name and
style flags are not consulted by the cleanup pass and are omitted). -/
structure DocumentElement where
  type : ElementType
  content : Str
  page : ℕ
  level : Option ℕ
  indent : Option ℕ
deriving DecidableEq, Repr

/-- JS `s.endsWith(c)` for a one-character suffix. -/
def strEndsWith (s : Str) (c : Char) : Bool :=
  s.getLast? = some c

/-- Walk state of `cleanDocumentElements`. In the source
`previousElement` aliases an element already pushed into `cleaned` and the
paragraph merge mutates it in place; functionally the alias is the index of
that element inside the accumulator. -/
structure CleanState where
  cleaned : List DocumentElement
  prevIdx : Option ℕ
deriving Repr

/-- One step of `cleanDocumentElements` over the element sequence. -/
def cleanStep (st : CleanState) (element : DocumentElement) : CleanState :=
  let prevElem : Option DocumentElement := st.prevIdx.bind (fun i => st.cleaned.get? i)
  if element.type = ElementType.image ∨ element.type = ElementType.table then
    { cleaned := st.cleaned ++ [element], prevIdx := some st.cleaned.length }
  else if element.type = ElementType.whitespace ∧ jsTrim element.content = [] then
    match prevElem with
    | some p =>
      if p.type ≠ ElementType.whitespace then
        { cleaned := st.cleaned ++ [element], prevIdx := st.prevIdx }
      else st
    | none => st
  else if jsTrim element.content = [] then st
  else
    match st.prevIdx, prevElem with
    | some i, some p =>
      if p.type = ElementType.paragraph ∧ element.type = ElementType.paragraph ∧
          p.page = element.page ∧ p.indent = element.indent ∧
          ¬strEndsWith p.content '.' ∧ ¬strEndsWith p.content ':' ∧
          ¬strEndsWith p.content '!' ∧ ¬strEndsWith p.content '?' then
        { cleaned := st.cleaned.set i { p with content := p.content ++ ' ' :: element.content }
          prevIdx := st.prevIdx }
      else
        { cleaned := st.cleaned ++ [element], prevIdx := some st.cleaned.length }
    | _, _ =>
      { cleaned := st.cleaned ++ [element], prevIdx := some st.cleaned.length }

/-- Cleanup pass over classified document elements
(`cleanDocumentElements`). -/
def cleanDocumentElements (elements : List DocumentElement) : List DocumentElement :=
  (elements.foldl cleanStep ⟨[], none⟩).cleaned

/-!
Embedding of the conversion decision logic of
`src/hooks/usePdfConversion.ts` (`convert`). The PDF decoding
(`parsePdf`, `extractTextByPage`) is an external collaborator (PDF.js);
its outputs are the parameters `textItems` and `pageText`.
-/

/-- Conversion mode selector (`ConversionMode`). -/
inductive ConvMode where
  | auto
  | tables
  | text
deriving DecidableEq, Repr

/-- The structured conversion result (`ConversionResult`; the
`documentStructure` payload is passed through unchanged and not consulted by
the emptiness check, so it is omitted). -/
structure ConversionResultM where
  tables : List EnhancedExtractedTable
  textContent : List (ℕ × Str)
deriving Repr

/-- The structured result `convert` builds before the emptiness check:
text mode forces text extraction; otherwise tables are tried first and text
extraction is the fallback of auto mode only. -/
def buildResult (mode : ConvMode) (textItems : List TextItem)
    (pageText : List (ℕ × Str)) : ConversionResultM :=
  if mode = ConvMode.text then { tables := [], textContent := pageText }
  else
    let tables := extractTables textItems
    if tables.length > 0 ∨ mode = ConvMode.tables then { tables := tables, textContent := [] }
    else { tables := [], textContent := pageText }

/-- The hard-failure message thrown by `convert`. -/
def errNoContent : Str :=
  ("No extractable content found in this PDF").toList

/-- Decision core of `convert`: build the result, then surface the
no-extractable-content failure exactly when both lists are empty. -/
def convertCore (mode : ConvMode) (textItems : List TextItem)
    (pageText : List (ℕ × Str)) : Except Str ConversionResultM :=
  let result := buildResult mode textItems pageText
  if result.tables.length = 0 ∧ result.textContent.length = 0 then
    Except.error errNoContent
  else Except.ok result

/-!
Synthetic fragments for the round-trip property (claim C2): each cell of an
extracted grid is turned back into a single fragment whose x position is the
cell's column index times a scale factor.
-/

/-- A synthetic single-cell fragment at column `j`. -/
def syntheticItem (scale : ℚ) (j : ℕ) (y : ℚ) (cell : Str) : TextItem :=
  { str := cell, x := scale * (j : ℚ), y := y, width := 0, height := 0,
    page := 1, fontName := none, fontSize := none }

/-- Synthetic fragments of one row, columns numbered from `j`. -/
def syntheticItemsAux (scale : ℚ) (y : ℚ) : ℕ → List Str → List TextItem
  | _, [] => []
  | j, c :: cs => syntheticItem scale j y c :: syntheticItemsAux scale y (j + 1) cs

/-- Synthetic rows of a grid, one `Row` per grid row. -/
def syntheticRowsAux (scale : ℚ) : ℕ → List (List Str) → List Row
  | _, [] => []
  | i, cells :: rest =>
    ⟨(i : ℚ), syntheticItemsAux scale (i : ℚ) 0 cells, 0⟩ :: syntheticRowsAux scale (i + 1) rest

/-- Feed a grid back through the column boundary detector and the cell
assigner, treating each cell as one fragment at x = scale · column index. -/
def roundTripGrid (scale : ℚ) (grid : List (List Str)) : List (List Str) :=
  let rows := syntheticRowsAux scale 0 grid
  let boundaries := detectColumnBoundariesForRegion rows
  rows.map (fun r => assignItemsToColumns r.items boundaries)

/-- Membership test of the row-grouping walk: y within the tolerance window
above a row's starting y. -/
def withinTol (c : ℚ) (x : TextItem) : Bool :=
  decide (x.y ≤ c)

/-- Signature of a grouped row used by the permutation-invariance claim:
its representative y and the multiset of its member fragments. -/
def rowSig (r : Row) : ℚ × Multiset TextItem :=
  (r.y, (r.items : Multiset TextItem))

/-- Row signatures of the grouped rows of a fragment list. -/
def rowSigs (items : List TextItem) : List (ℚ × Multiset TextItem) :=
  (groupIntoRows items).map rowSig

/-!
Concrete inputs used by counterexamples and witnesses.
-/

/-- A concrete table-cell fragment on page 1. -/
def mkItem (s : Str) (x y w : ℚ) : TextItem :=
  { str := s, x := x, y := y, width := w, height := 10, page := 1,
    fontName := none, fontSize := none }

/-- Scenario C input (claim C1): two 3×3 aligned grids on one page,
separated by 4 rows of single-fragment prose. -/
def scenarioCInput : List TextItem :=
  [ mkItem (("aa").toList) 0 0 20, mkItem (("ab").toList) 100 0 20, mkItem (("ac").toList) 200 0 20,
    mkItem (("ba").toList) 0 10 20, mkItem (("bb").toList) 100 10 20, mkItem (("bc").toList) 200 10 20,
    mkItem (("ca").toList) 0 20 20, mkItem (("cb").toList) 100 20 20, mkItem (("cc").toList) 200 20 20,
    mkItem (("one").toList) 0 40 50,
    mkItem (("two").toList) 0 50 50,
    mkItem (("three").toList) 0 60 50,
    mkItem (("four").toList) 0 70 50,
    mkItem (("pa").toList) 0 90 20, mkItem (("pb").toList) 100 90 20, mkItem (("pc").toList) 200 90 20,
    mkItem (("qa").toList) 0 100 20, mkItem (("qb").toList) 100 100 20, mkItem (("qc").toList) 200 100 20,
    mkItem (("ra").toList) 0 110 20, mkItem (("rb").toList) 100 110 20, mkItem (("rc").toList) 200 110 20 ]

/-!
Theorems.
-/

set_option maxRecDepth 10000

/-- Helper: membership count of a filter is positive exactly when some
element satisfies the predicate. -/
theorem filter_length_pos_iff_any {α : Type} (l : List α) (p : α → Bool) :
    (l.filter p).length > 0 ↔ l.any p = true := by
  rw [gt_iff_lt, List.length_pos, Ne, List.filter_eq_nil_iff, List.any_eq_true]
  push_neg
  simp

/-- Helper: the `detectCurrencySymbol` loop is first-match search followed
by normalization. -/
theorem detectCurrencySymbolLoop_eq_find (values : List Str) :
    ∀ ps : List (Str × (Str → Bool)),
      detectCurrencySymbolLoop values ps =
        (ps.find? (fun sp => values.any (fun v => sp.2 v))).map
          (fun sp => normalizeCurrencySymbol sp.1) := by
  intro ps
  induction ps with
  | nil => rfl
  | cons sp rest ih =>
    by_cases h : values.any (fun v => sp.2 v) = true
    · have hlen : (values.filter (fun v => sp.2 v)).length > 0 :=
        (filter_length_pos_iff_any values (fun v => sp.2 v)).mpr h
      simp [detectCurrencySymbolLoop, List.find?_cons, h, hlen]
    · have hlen : ¬(values.filter (fun v => sp.2 v)).length > 0 := by
        intro hc
        exact h ((filter_length_pos_iff_any values (fun v => sp.2 v)).mp hc)
      simp only [detectCurrencySymbolLoop, List.find?_cons]
      rw [if_neg hlen]
      simp only [h, cond_false]
      exact ih

/-- Claim C8: `detectCurrencySymbol` tests the known currency patterns in
their fixed priority order and returns the canonical glyph (locale variants
normalized to one glyph per currency) of the first pattern matching some
value, and returns no symbol exactly when no pattern matches any value. -/
theorem claim_C8 (values : List Str) :
    detectCurrencySymbol values = detectCurrencySymbolSpec values ∧
    (detectCurrencySymbol values = none ↔
      ∀ sp ∈ currencyPatterns, ∀ v ∈ values, sp.2 v = false) := by
  have heq : detectCurrencySymbol values = detectCurrencySymbolSpec values := by
    unfold detectCurrencySymbol detectCurrencySymbolSpec
    exact detectCurrencySymbolLoop_eq_find values currencyPatterns
  refine ⟨heq, ?_⟩
  rw [heq]
  unfold detectCurrencySymbolSpec
  rw [Option.map_eq_none', List.find?_eq_none]
  simp only [List.any_eq_true, not_exists, not_and, Bool.not_eq_true]

/-- Claim C10: when the primary region-based pass finds no tables,
`extractTables` returns the result of the aggressive alternative pass, so an
empty result means both passes found nothing. -/
theorem claim_C10 (textItems : List TextItem) :
    extractTables textItems =
      (if extractTablesPrimary textItems = [] then extractTablesAlternative textItems
       else extractTablesPrimary textItems) ∧
    (extractTables textItems = [] ↔
      extractTablesPrimary textItems = [] ∧ extractTablesAlternative textItems = []) := by
  by_cases h : extractTablesPrimary textItems = []
  · constructor
    · simp [extractTables, h]
    · simp [extractTables, h]
  · constructor
    · simp [extractTables, h, List.length_eq_zero]
    · simp [extractTables, h, List.length_eq_zero]

/-- Claim C5: the conversion decision logic surfaces the
no-extractable-content failure exactly when the built result's tables list
and text content are both empty, and otherwise returns the structured result
(in which at least one of the two is non-empty). -/
theorem claim_C5 (mode : ConvMode) (textItems : List TextItem)
    (pageText : List (ℕ × Str)) :
    (convertCore mode textItems pageText = Except.error errNoContent ↔
      (buildResult mode textItems pageText).tables = [] ∧
        (buildResult mode textItems pageText).textContent = []) ∧
    (convertCore mode textItems pageText = Except.ok (buildResult mode textItems pageText) ↔
      ¬((buildResult mode textItems pageText).tables = [] ∧
        (buildResult mode textItems pageText).textContent = [])) := by
  by_cases h : (buildResult mode textItems pageText).tables = [] ∧
      (buildResult mode textItems pageText).textContent = []
  · constructor
    · simp [convertCore, h.1, h.2]
    · simp [convertCore, h.1, h.2]
  · rw [Classical.not_and_iff_or_not_not] at h
    rcases h with h | h
    · have hlen : (buildResult mode textItems pageText).tables.length ≠ 0 := by
        simpa [List.length_eq_zero] using h
      constructor
      · simp [convertCore, hlen, h]
      · simp [convertCore, hlen, h]
    · have hlen : (buildResult mode textItems pageText).textContent.length ≠ 0 := by
        simpa [List.length_eq_zero] using h
      constructor
      · simp [convertCore, hlen, h]
      · simp [convertCore, hlen, h]

/-- Claim C7 (evaluation at the failing input): after a paragraph, two
consecutive empty whitespace markers are both kept by
`cleanDocumentElements`, because the previous-element cursor is not updated
when a whitespace marker is pushed; the output contains two consecutive
whitespace-kind elements, contradicting the collapse-to-one description. -/
theorem claim_C7_eval :
    (cleanDocumentElements
      [ ⟨ElementType.paragraph, ("a").toList, 1, none, none⟩,
        ⟨ElementType.whitespace, [], 1, none, none⟩,
        ⟨ElementType.whitespace, [], 1, none, none⟩ ]).map (fun e => e.type) =
      [ElementType.paragraph, ElementType.whitespace, ElementType.whitespace] := by
  with_unfolding_all decide

/-- Claim C1 (counterexample): on a page with two separate 3×3 aligned grids
separated by 4 rows of single-fragment prose, the second table's letterhead
is not the full run of 4 prose rows: the prose row that closes region 1 is
dropped, leaving only the last 3 prose lines. -/
theorem claim_C1_counterexample :
    (extractTables scenarioCInput).map (fun t => t.letterhead) =
      [none, some [("two").toList, ("three").toList, ("four").toList]] ∧
    (extractTables scenarioCInput).map (fun t => t.letterhead) ≠
      [none, some [("one").toList, ("two").toList, ("three").toList, ("four").toList]] := by
  have h : (extractTables scenarioCInput).map (fun t => t.letterhead) =
      [none, some [("two").toList, ("three").toList, ("four").toList]] := by
    with_unfolding_all decide
  refine ⟨h, ?_⟩
  rw [h]
  with_unfolding_all decide

/-- Claim C1 (amended): on the two-grid page, `extractTables` returns
exactly two tables with the two 3×3 grids; region 1's letterhead is empty
(nothing precedes it), and region 2's letterhead is the last 3 of the 4
prose rows — the prose row that closed region 1 is consumed by the close
and never collected. -/
theorem claim_C1_amended :
    (extractTables scenarioCInput).length = 2 ∧
    (extractTables scenarioCInput).map (fun t => t.rows) =
      [ [[("aa").toList, ("ab").toList, ("ac").toList],
         [("ba").toList, ("bb").toList, ("bc").toList],
         [("ca").toList, ("cb").toList, ("cc").toList]],
        [[("pa").toList, ("pb").toList, ("pc").toList],
         [("qa").toList, ("qb").toList, ("qc").toList],
         [("ra").toList, ("rb").toList, ("rc").toList]] ] ∧
    (extractTables scenarioCInput).map (fun t => t.letterhead) =
      [none, some [("two").toList, ("three").toList, ("four").toList]] := by
  refine ⟨?_, ?_, ?_⟩
  · with_unfolding_all decide
  · with_unfolding_all decide
  · with_unfolding_all decide

/-- Claim C2 (counterexample): feeding a 2×2 grid back through boundary
detection and cell assignment with each cell at x equal to its column index
does not reproduce the grid: the two indices (gap 1 ≤ 10) fall into one
cluster, a single boundary results, and each row collapses to one cell. -/
theorem claim_C2_counterexample :
    roundTripGrid 1 [[("a").toList, ("b").toList], [("c").toList, ("d").toList]] =
      [[("a b").toList], [("c d").toList]] ∧
    roundTripGrid 1 [[("a").toList, ("b").toList], [("c").toList, ("d").toList]] ≠
      [[("a").toList, ("b").toList], [("c").toList, ("d").toList]] := by
  have h : roundTripGrid 1 [[("a").toList, ("b").toList], [("c").toList, ("d").toList]] =
      [[("a b").toList], [("c d").toList]] := by
    with_unfolding_all decide
  refine ⟨h, ?_⟩
  rw [h]
  with_unfolding_all decide

/-- Helper: the head surviving `dropWhile` fails the predicate. -/
theorem dropWhile_head_false {α : Type} (p : α → Bool) :
    ∀ (l : List α) (a : α) (t : List α), l.dropWhile p = a :: t → p a = false := by
  intro l
  induction l with
  | nil => intro a t h; simp [List.dropWhile] at h
  | cons b l ih =>
    intro a t h
    by_cases hb : p b = true
    · rw [List.dropWhile_cons_of_pos hb] at h
      exact ih a t h
    · rw [List.dropWhile_cons_of_neg hb] at h
      cases h
      simpa using hb

/-- Helper: `dropWhile` is idempotent. -/
theorem dropWhile_dropWhile {α : Type} (p : α → Bool) (l : List α) :
    (l.dropWhile p).dropWhile p = l.dropWhile p := by
  cases h : l.dropWhile p with
  | nil => simp
  | cons a t =>
    have ha := dropWhile_head_false p l a t h
    rw [List.dropWhile_cons_of_neg (by simp [ha])]

/-- Helper: dropping trailing whitespace yields a prefix of the string. -/
theorem dropTrailingSpaces_append (s : Str) :
    ∃ t, dropTrailingSpaces s ++ t = s := by
  obtain ⟨u, hu⟩ := List.dropWhile_suffix (l := s.reverse) (p := isJsSpace)
  refine ⟨u.reverse, ?_⟩
  unfold dropTrailingSpaces
  have h2 := congrArg List.reverse hu
  rw [List.reverse_append, List.reverse_reverse] at h2
  exact h2

/-- Helper: a string with no leading whitespace keeps that property after
its trailing whitespace is dropped. -/
theorem dropTrailing_stable (A : Str) (hA : A.dropWhile isJsSpace = A) :
    (dropTrailingSpaces A).dropWhile isJsSpace = dropTrailingSpaces A := by
  obtain ⟨t, ht⟩ := dropTrailingSpaces_append A
  cases hd : dropTrailingSpaces A with
  | nil => simp
  | cons c u =>
    have hAc : A = c :: (u ++ t) := by
      rw [← ht, hd]
      simp
    have hdw : A.dropWhile isJsSpace = c :: (u ++ t) := by
      rw [hA]
      exact hAc
    have hc := dropWhile_head_false isJsSpace A c (u ++ t) hdw
    rw [List.dropWhile_cons_of_neg (by simp [hc])]

/-- Helper: `jsTrim` is idempotent, i.e. a trimmed string has no leading or
trailing whitespace left to remove. -/
theorem jsTrim_idem (s : Str) : jsTrim (jsTrim s) = jsTrim s := by
  unfold jsTrim
  rw [dropTrailing_stable (s.dropWhile isJsSpace) (dropWhile_dropWhile isJsSpace s)]
  unfold dropTrailingSpaces
  rw [List.reverse_reverse, dropWhile_dropWhile]

/-- Helper: one assignment step preserves the number of cells. -/
theorem assignItemStep_length (boundaries : List ℚ) (cells : List Str) (item : TextItem) :
    (assignItemStep boundaries cells item).length = cells.length := by
  unfold assignItemStep
  split <;> simp [apply_ite List.length, List.length_set]

/-- Helper: the fragment-assignment fold preserves the number of cells. -/
theorem assign_fold_length (boundaries : List ℚ) :
    ∀ (items : List TextItem) (cells : List Str),
      (items.foldl (assignItemStep boundaries) cells).length = cells.length := by
  intro items
  induction items with
  | nil => intro cells; rfl
  | cons item rest ih =>
    intro cells
    rw [List.foldl_cons, ih, assignItemStep_length]

/-- Claim C4: for every fragment list and every non-empty sorted boundary
list, the cell assigner returns exactly one cell per boundary, and every
returned cell is fully trimmed (no leading or trailing whitespace). -/
theorem claim_C4 (items : List TextItem) (boundaries : List ℚ)
    (hne : boundaries ≠ []) (hsorted : List.Sorted (· ≤ ·) boundaries) :
    (assignItemsToColumns items boundaries).length = boundaries.length ∧
    ∀ c ∈ assignItemsToColumns items boundaries, jsTrim c = c := by
  constructor
  · unfold assignItemsToColumns
    rw [List.length_map, assign_fold_length, List.length_replicate]
  · intro c hc
    unfold assignItemsToColumns at hc
    rw [List.mem_map] at hc
    obtain ⟨a, _, rfl⟩ := hc
    exact jsTrim_idem a

/-- Claim C4 witness: the cell assigner applied to one untrimmed fragment
and the concrete sorted boundary list `[0, 100]`. -/
theorem claim_C4_witness :
    (([0, 100] : List ℚ) ≠ [] ∧ List.Sorted (· ≤ ·) ([0, 100] : List ℚ)) ∧
    ((assignItemsToColumns [mkItem ((" hi ").toList) 0 0 5] [0, 100]).length =
        ([0, 100] : List ℚ).length ∧
      ∀ c ∈ assignItemsToColumns [mkItem ((" hi ").toList) 0 0 5] [0, 100], jsTrim c = c) := by
  have hne : ([0, 100] : List ℚ) ≠ [] := by simp
  have hs : List.Sorted (· ≤ ·) ([0, 100] : List ℚ) := by
    norm_num [List.sorted_cons]
  exact ⟨⟨hne, hs⟩, claim_C4 [mkItem ((" hi ").toList) 0 0 5] [0, 100] hne hs⟩

/-- Helper: filtering commutes with duplicating every element `k` times. -/
theorem filter_flatMap_replicate {α : Type} (p : α → Bool) (k : ℕ) (l : List α) :
    (l.flatMap (fun v => List.replicate k v)).filter p =
      (l.filter p).flatMap (fun v => List.replicate k v) := by
  induction l with
  | nil => rfl
  | cons a l ih =>
    rw [List.flatMap_cons, List.filter_append, ih, List.filter_replicate]
    by_cases h : p a = true
    · simp [h, List.flatMap_cons]
    · simp [h]

/-- Helper: duplicating every element `k` times scales the length by `k`. -/
theorem length_flatMap_replicate {α : Type} (k : ℕ) (l : List α) :
    (l.flatMap (fun v => List.replicate k v)).length = k * l.length := by
  induction l with
  | nil => simp
  | cons a l ih =>
    rw [List.flatMap_cons, List.length_append, List.length_replicate, ih, List.length_cons]
    ring

/-- Claim C6: duplicating each of a column's values `k` times (for any
positive `k`) never changes the type inferred by `detectColumnType`. -/
theorem claim_C6 (values : List Str) (k : ℕ) (hk : 0 < k) :
    detectColumnType (values.flatMap (fun v => List.replicate k v)) =
      detectColumnType values := by
  have hkQ : (k : ℚ) ≠ 0 := Nat.cast_ne_zero.mpr hk.ne'
  unfold detectColumnType
  simp only [filter_flatMap_replicate, length_flatMap_replicate]
  simp only [Nat.mul_eq_zero, false_or, Nat.pos_iff_ne_zero.mp hk, Nat.cast_mul]
  simp only [mul_div_mul_left _ _ hkQ]

/-- Claim C6 witness: duplicating a concrete column twice leaves its
inferred type unchanged. -/
theorem claim_C6_witness :
    0 < 2 ∧
    detectColumnType ([("$5").toList, ("x").toList].flatMap (fun v => List.replicate 2 v)) =
      detectColumnType [("$5").toList, ("x").toList] :=
  ⟨by norm_num, claim_C6 [("$5").toList, ("x").toList] 2 (by norm_num)⟩


/-- Helper: uppercasing never produces or destroys a whitespace character. -/
theorem isJsSpace_jsUpper (c : Char) : isJsSpace (jsUpperChar c) = isJsSpace c := by
  unfold jsUpperChar
  cases h : casePairs.find? (fun p => p.1 = c) with
  | none => rfl
  | some p =>
    have hmem := List.mem_of_find?_eq_some h
    have hp : p.1 = c := by simpa using List.find?_some h
    subst hp
    fin_cases hmem <;> decide

/-- Helper: uppercasing never produces or destroys a digit. -/
theorem isDigitChar_jsUpper (c : Char) : isDigitChar (jsUpperChar c) = isDigitChar c := by
  unfold jsUpperChar
  cases h : casePairs.find? (fun p => p.1 = c) with
  | none => rfl
  | some p =>
    have hmem := List.mem_of_find?_eq_some h
    have hp : p.1 = c := by simpa using List.find?_some h
    subst hp
    fin_cases hmem <;> decide

/-- Helper: uppercasing never produces or destroys a currency-junk
character (`$₦€£,`, whitespace, `%`). -/
theorem isCurrencyJunkChar_jsUpper (c : Char) :
    isCurrencyJunkChar (jsUpperChar c) = isCurrencyJunkChar c := by
  unfold jsUpperChar
  cases h : casePairs.find? (fun p => p.1 = c) with
  | none => rfl
  | some p =>
    have hmem := List.mem_of_find?_eq_some h
    have hp : p.1 = c := by simpa using List.find?_some h
    subst hp
    fin_cases hmem <;> decide

/-- Helper: uppercasing does not affect the sign test of the float parser. -/
theorem signTest_jsUpper (c : Char) :
    (decide (jsUpperChar c = '+') || decide (jsUpperChar c = '-')) =
      (decide (c = '+') || decide (c = '-')) := by
  unfold jsUpperChar
  cases h : casePairs.find? (fun p => p.1 = c) with
  | none => rfl
  | some p =>
    have hmem := List.mem_of_find?_eq_some h
    have hp : p.1 = c := by simpa using List.find?_some h
    subst hp
    fin_cases hmem <;> decide

/-- Helper: uppercasing does not affect the decimal-point test. -/
theorem dotTest_jsUpper (c : Char) :
    decide (jsUpperChar c = '.') = decide (c = '.') := by
  unfold jsUpperChar
  cases h : casePairs.find? (fun p => p.1 = c) with
  | none => rfl
  | some p =>
    have hmem := List.mem_of_find?_eq_some h
    have hp : p.1 = c := by simpa using List.find?_some h
    subst hp
    fin_cases hmem <;> decide

/-- Helper: lowercasing after uppercasing is plain lowercasing. -/
theorem jsLowerChar_jsUpperChar (c : Char) :
    jsLowerChar (jsUpperChar c) = jsLowerChar c := by
  unfold jsUpperChar
  cases h : casePairs.find? (fun p => p.1 = c) with
  | none => rfl
  | some p =>
    have hmem := List.mem_of_find?_eq_some h
    have hp : p.1 = c := by simpa using List.find?_some h
    subst hp
    fin_cases hmem <;> decide

/-- Helper: uppercasing is idempotent. -/
theorem jsUpperChar_idem (c : Char) : jsUpperChar (jsUpperChar c) = jsUpperChar c := by
  cases h : casePairs.find? (fun p => p.1 = c) with
  | none =>
    have hc : jsUpperChar c = c := by
      unfold jsUpperChar
      rw [h]
    rw [hc]
    exact hc
  | some p =>
    have hmem := List.mem_of_find?_eq_some h
    have hc : jsUpperChar c = p.2 := by
      unfold jsUpperChar
      rw [h]
    rw [hc]
    fin_cases hmem <;> decide

/-- Helper: the whitespace predicate composed with uppercasing. -/
theorem isJsSpace_comp_jsUpper : (isJsSpace ∘ jsUpperChar) = isJsSpace :=
  funext isJsSpace_jsUpper

/-- Helper: trimming commutes with uppercasing. -/
theorem jsTrim_jsStrUpper (s : Str) : jsTrim (jsStrUpper s) = jsStrUpper (jsTrim s) := by
  unfold jsTrim dropTrailingSpaces jsStrUpper
  rw [List.dropWhile_map, isJsSpace_comp_jsUpper, ← List.map_reverse, List.dropWhile_map,
    isJsSpace_comp_jsUpper, ← List.map_reverse]

/-- Helper: an uppercased string is trim-blank exactly when the original is. -/
theorem jsTrim_jsStrUpper_eq_nil (s : Str) :
    (jsTrim (jsStrUpper s) = []) ↔ (jsTrim s = []) := by
  rw [jsTrim_jsStrUpper]
  unfold jsStrUpper
  simp

/-- Helper: the currency-junk cleanup commutes with uppercasing. -/
theorem cleanCurrencyChars_jsStrUpper (s : Str) :
    cleanCurrencyChars (jsStrUpper s) = jsStrUpper (cleanCurrencyChars s) := by
  unfold cleanCurrencyChars jsStrUpper
  rw [List.filter_map]
  congr 1
  apply List.filter_congr
  intro c _
  simp only [Function.comp_apply, isCurrencyJunkChar_jsUpper]

/-- Helper: the finite-float test is invariant under uppercasing. -/
theorem jsParseFloatFinite_jsStrUpper (s : Str) :
    jsParseFloatFinite (jsStrUpper s) = jsParseFloatFinite s := by
  unfold jsParseFloatFinite jsStrUpper
  rw [List.dropWhile_map, isJsSpace_comp_jsUpper]
  cases s.dropWhile isJsSpace with
  | nil => rfl
  | cons c rest =>
    simp only [List.map_cons]
    rw [signTest_jsUpper c]
    cases hsign : (decide (c = '+') || decide (c = '-')) with
    | true =>
      simp only [eq_self_iff_true, if_true]
      cases rest with
      | nil => rfl
      | cons d e =>
        simp only [List.map_cons]
        rw [isDigitChar_jsUpper d, dotTest_jsUpper d]
        cases e with
        | nil => rfl
        | cons f g =>
          simp only [List.map_cons]
          rw [isDigitChar_jsUpper f]
    | false =>
      simp only [Bool.false_eq_true, if_false, List.map_cons]
      rw [isDigitChar_jsUpper c, dotTest_jsUpper c]
      cases rest with
      | nil => rfl
      | cons d e =>
        simp only [List.map_cons]
        rw [isDigitChar_jsUpper d]


/-- Helper: lowercasing an uppercased string is plain lowercasing. -/
theorem jsStrLower_jsStrUpper (s : Str) : jsStrLower (jsStrUpper s) = jsStrLower s := by
  unfold jsStrLower jsStrUpper
  rw [List.map_map]
  apply List.map_congr_left
  intro c _
  exact jsLowerChar_jsUpperChar c

/-- Helper: the numeric-cell ratio of a row is invariant under uppercasing
every cell. -/
theorem getNumericRatio_jsStrUpper (row : List Str) :
    getNumericRatio (row.map jsStrUpper) = getNumericRatio row := by
  simp only [getNumericRatio]
  have hfilter : (row.map jsStrUpper).filter (fun c => jsTrim c ≠ []) =
      (row.filter (fun c => jsTrim c ≠ [])).map jsStrUpper := by
    rw [List.filter_map]
    congr 1
    apply List.filter_congr
    intro c _
    simp only [Function.comp_apply]
    rw [decide_eq_decide]
    exact not_congr (jsTrim_jsStrUpper_eq_nil c)
  rw [hfilter]
  have hfilter2 : ((row.filter (fun c => jsTrim c ≠ [])).map jsStrUpper).filter
        (fun cell => jsParseFloatFinite (cleanCurrencyChars cell)) =
      ((row.filter (fun c => jsTrim c ≠ [])).filter
        (fun cell => jsParseFloatFinite (cleanCurrencyChars cell))).map jsStrUpper := by
    rw [List.filter_map]
    congr 1
    apply List.filter_congr
    intro c _
    simp only [Function.comp_apply]
    rw [cleanCurrencyChars_jsStrUpper, jsParseFloatFinite_jsStrUpper]
  rw [hfilter2, List.length_map, List.length_map]

/-- Helper: the empty-cell count of a row is invariant under uppercasing. -/
theorem emptyCount_jsStrUpper (row : List Str) :
    ((row.map jsStrUpper).filter (fun c => jsTrim c = [])).length =
      (row.filter (fun c => jsTrim c = [])).length := by
  rw [List.filter_map, List.length_map]
  congr 1
  apply List.filter_congr
  intro c _
  simp only [Function.comp_apply]
  rw [decide_eq_decide]
  exact jsTrim_jsStrUpper_eq_nil c

/-- Helper: a header-like cell stays header-like after uppercasing. -/
theorem isHeaderLike_jsStrUpper_mono (s : Str) (h : isHeaderLike s = true) :
    isHeaderLike (jsStrUpper s) = true := by
  cases s with
  | nil => exact absurd h (by decide)
  | cons c rest =>
    simp only [isHeaderLike] at h ⊢
    by_cases h1 : jsTrim (c :: rest) = []
    · rw [if_pos h1] at h
      exact absurd h (by simp)
    · rw [if_neg h1] at h
      have h1u : ¬(jsTrim (jsStrUpper (c :: rest)) = []) := by
        intro hc
        exact h1 ((jsTrim_jsStrUpper_eq_nil (c :: rest)).mp hc)
      rw [if_neg h1u]
      by_cases h2 : (c :: rest : Str).length ≤ 40
      · rw [if_pos h2] at h
        have h2u : (jsStrUpper (c :: rest)).length ≤ 40 := by
          unfold jsStrUpper
          rw [List.length_map]
          exact h2
        rw [if_pos h2u]
        have hvalue : (!jsParseFloatFinite (cleanCurrencyChars (c :: rest))) = true := by
          rcases Bool.eq_false_or_eq_true
              (firstCharCapital (c :: rest) ||
                decide ((c :: rest : Str) = jsStrUpper (c :: rest))) with hc | hc
          · rw [hc] at h
            simp only [eq_self_iff_true, if_true] at h
            exact h
          · rw [hc] at h
            exact absurd h (by simp)
        have hcap : firstCharCapital (jsStrUpper (c :: rest)) = true := by
          show firstCharCapital (jsUpperChar c :: List.map jsUpperChar rest) = true
          unfold firstCharCapital
          rw [decide_eq_true_eq]
          exact (jsUpperChar_idem c).symm
        rw [hcap]
        simp only [Bool.true_or, eq_self_iff_true, if_true]
        rw [cleanCurrencyChars_jsStrUpper, jsParseFloatFinite_jsStrUpper]
        exact hvalue
      · rw [if_neg h2] at h
        exact absurd h (by simp)

/-- Helper: a pointwise-preserved predicate filters at least as many
elements after mapping. -/
theorem filter_length_mono_of_imp {α β : Type} (f : α → β) (p : α → Bool) (q : β → Bool)
    (l : List α) (h : ∀ a, p a = true → q (f a) = true) :
    (l.filter p).length ≤ ((l.map f).filter q).length := by
  induction l with
  | nil => simp
  | cons a l ih =>
    simp only [List.map_cons, List.filter_cons]
    by_cases hpa : p a = true
    · rw [if_pos hpa, if_pos (h a hpa)]
      simpa using ih
    · rw [if_neg hpa]
      by_cases hqa : q (f a) = true
      · rw [if_pos hqa]
        exact le_trans ih (Nat.le_succ _)
      · rw [if_neg hqa]
        exact ih

/-- Helper: check 1 of the header score is invariant under uppercasing the
first row. -/
theorem headerScore1_jsStrUpper (f : List Str) (rest : List (List Str)) :
    headerScore1 (f.map jsStrUpper) rest = headerScore1 f rest := by
  simp only [headerScore1]
  rw [getNumericRatio_jsStrUpper]

/-- Helper: check 3 of the header score is invariant under uppercasing the
first row. -/
theorem headerScore3_jsStrUpper (f : List Str) (rest : List (List Str)) :
    headerScore3 (f.map jsStrUpper) rest = headerScore3 f rest := by
  simp only [headerScore3]
  rw [emptyCount_jsStrUpper]

/-- Helper: check 4 of the header score (keywords, case-insensitive) is
invariant under uppercasing the first row. -/
theorem headerScore4_jsStrUpper (f : List Str) :
    headerScore4 (f.map jsStrUpper) = headerScore4 f := by
  simp only [headerScore4]
  have hany : (f.map jsStrUpper).any
        (fun cell => headerKeywords.any (fun kw => containsSubstr (jsStrLower cell) kw)) =
      f.any (fun cell => headerKeywords.any (fun kw => containsSubstr (jsStrLower cell) kw)) := by
    rw [List.any_map]
    congr 1
    funext cell
    simp only [Function.comp_apply, jsStrLower_jsStrUpper]
  rw [hany]

/-- Helper: check 2 of the header score never decreases when the first row
is uppercased. -/
theorem headerScore2_jsStrUpper_mono (f : List Str) :
    headerScore2 f ≤ headerScore2 (f.map jsStrUpper) := by
  simp only [headerScore2]
  by_cases hcond : ((f.filter isHeaderLike).length : ℚ) > (f.length : ℚ) * (5 / 10)
  · rw [if_pos hcond]
    have hle := filter_length_mono_of_imp jsStrUpper isHeaderLike isHeaderLike f
      (fun a => isHeaderLike_jsStrUpper_mono a)
    have hcond2 : (((f.map jsStrUpper).filter isHeaderLike).length : ℚ) >
        ((f.map jsStrUpper).length : ℚ) * (5 / 10) := by
      rw [List.length_map]
      refine lt_of_lt_of_le hcond ?_
      exact_mod_cast hle
    rw [if_pos hcond2]
  · rw [if_neg hcond]
    split_ifs <;> norm_num

/-- Claim C3 (amended): uppercasing every cell of the first row never turns
a detected header into a non-header — the keyword check is case-insensitive
and the header-likeness count can only grow. Full case invariance fails:
the capitalization check is case-sensitive and lowercasing can flip the
outcome (see the counterexample). -/
theorem claim_C3_amended (firstRow : List Str) (restRows : List (List Str))
    (h : (detectHeader (firstRow :: restRows)).isHeader = true) :
    (detectHeader (firstRow.map jsStrUpper :: restRows)).isHeader = true := by
  cases restRows with
  | nil => exact absurd h Bool.false_ne_true
  | cons r rs =>
    have hh : headerScore firstRow (r :: rs) ≥ 2 := of_decide_eq_true h
    have h1 := headerScore1_jsStrUpper firstRow (r :: rs)
    have h3 := headerScore3_jsStrUpper firstRow (r :: rs)
    have h4 := headerScore4_jsStrUpper firstRow
    have h2 := headerScore2_jsStrUpper_mono firstRow
    have hh2 : headerScore (firstRow.map jsStrUpper) (r :: rs) ≥ 2 := by
      unfold headerScore at hh ⊢
      rw [h1, h3, h4]
      linarith
    exact decide_eq_true hh2

/-- Claim C3 (counterexample): lowercasing every cell of a detected header
row flips the isHeader outcome — the capitalization half of `isHeaderLike`
is case-sensitive, so the header-likeness score (check 2) is lost. -/
theorem claim_C3_counterexample :
    (detectHeader [[("Name").toList, ("City").toList],
      [("foo").toList, ("bar").toList]]).isHeader = true ∧
    (detectHeader ([("Name").toList, ("City").toList].map jsStrLower ::
      [[("foo").toList, ("bar").toList]])).isHeader = false := by
  constructor
  · with_unfolding_all decide
  · with_unfolding_all decide

/-- Claim C3 witness: the amended monotonicity applied to a concrete
detected header. -/
theorem claim_C3_amended_witness :
    (detectHeader [[("Name").toList, ("City").toList],
      [("1").toList, ("2").toList]]).isHeader = true ∧
    (detectHeader ([("Name").toList, ("City").toList].map jsStrUpper ::
      [[("1").toList, ("2").toList]])).isHeader = true := by
  have h : (detectHeader [[("Name").toList, ("City").toList],
      [("1").toList, ("2").toList]]).isHeader = true := by
    with_unfolding_all decide
  exact ⟨h, claim_C3_amended [("Name").toList, ("City").toList] [[("1").toList, ("2").toList]] h⟩

/-- Helper: the grouping walk starting with no current row. -/
theorem groupLoop_cons_none (acc : List Row) (item : TextItem) (rest : List TextItem) :
    groupIntoRowsLoop acc none (item :: rest) =
      groupIntoRowsLoop acc (some ⟨item.y, [item], item.height⟩) rest := rfl

/-- Helper: the grouping walk closes the current row on a far item. -/
theorem groupLoop_cons_far (acc : List Row) (r : Row) (item : TextItem) (rest : List TextItem)
    (h : ratAbs (item.y - r.y) > ROW_TOLERANCE) :
    groupIntoRowsLoop acc (some r) (item :: rest) =
      groupIntoRowsLoop (acc ++ [r]) (some ⟨item.y, [item], item.height⟩) rest := by
  simp [groupIntoRowsLoop, h]

/-- Helper: the grouping walk extends the current row on a near item. -/
theorem groupLoop_cons_near (acc : List Row) (r : Row) (item : TextItem) (rest : List TextItem)
    (h : ¬(ratAbs (item.y - r.y) > ROW_TOLERANCE)) :
    groupIntoRowsLoop acc (some r) (item :: rest) =
      groupIntoRowsLoop acc (some ⟨r.y, r.items ++ [item],
        (r.avgHeight * (((r.items.length : ℚ) + 1) - 1) + item.height) /
          ((r.items.length : ℚ) + 1)⟩) rest := by
  simp [groupIntoRowsLoop, h]

/-- Helper: the accumulator of the grouping walk is a passive prefix. -/
theorem groupLoop_acc : ∀ (rest : List TextItem) (acc : List Row) (cur : Option Row),
    groupIntoRowsLoop acc cur rest = acc ++ groupIntoRowsLoop [] cur rest := by
  intro rest
  induction rest with
  | nil =>
    intro acc cur
    cases cur <;> simp [groupIntoRowsLoop]
  | cons item rest ih =>
    intro acc cur
    cases cur with
    | none =>
      rw [groupLoop_cons_none, groupLoop_cons_none]
      exact ih acc _
    | some r =>
      by_cases hcond : ratAbs (item.y - r.y) > ROW_TOLERANCE
      · rw [groupLoop_cons_far acc r item rest hcond, groupLoop_cons_far [] r item rest hcond,
          ih (acc ++ [r]) _, ih ([] ++ [r]) _]
        simp
      · rw [groupLoop_cons_near acc r item rest hcond, groupLoop_cons_near [] r item rest hcond]
        exact ih acc _

/-- Helper: absorbing a run of near items into the current row: the walk
emits the row extended by the within-tolerance prefix (with some running
average height) and continues fresh on the remainder. -/
theorem groupLoop_absorb : ∀ (l : List TextItem) (r : Row), (∀ x ∈ l, r.y ≤ x.y) →
    ∃ a, groupIntoRowsLoop [] (some r) l =
      ⟨r.y, r.items ++ l.takeWhile (withinTol (r.y + ROW_TOLERANCE)), a⟩ ::
        groupIntoRowsLoop [] none (l.dropWhile (withinTol (r.y + ROW_TOLERANCE))) := by
  intro l
  induction l with
  | nil =>
    intro r _
    exact ⟨r.avgHeight, by simp [groupIntoRowsLoop]⟩
  | cons x l ih =>
    intro r h
    have hyx : r.y ≤ x.y := h x (List.mem_cons_self x l)
    by_cases hq : x.y ≤ r.y + ROW_TOLERANCE
    · have hqb : withinTol (r.y + ROW_TOLERANCE) x = true := by
        unfold withinTol
        exact decide_eq_true hq
      have hcond : ¬(ratAbs (x.y - r.y) > ROW_TOLERANCE) := by
        unfold ratAbs
        rw [if_neg (by linarith)]
        linarith
      obtain ⟨a, ha⟩ := ih ⟨r.y, r.items ++ [x],
          (r.avgHeight * (((r.items.length : ℚ) + 1) - 1) + x.height) /
            ((r.items.length : ℚ) + 1)⟩
        (fun z hz => h z (List.mem_cons_of_mem x hz))
      refine ⟨a, ?_⟩
      rw [groupLoop_cons_near [] r x l hcond, ha]
      rw [List.takeWhile_cons_of_pos hqb, List.dropWhile_cons_of_pos hqb]
      simp [List.append_assoc]
    · have hqb : ¬(withinTol (r.y + ROW_TOLERANCE) x = true) := by
        unfold withinTol
        simp only [decide_eq_true_eq]
        exact hq
      have hcond : ratAbs (x.y - r.y) > ROW_TOLERANCE := by
        unfold ratAbs
        rw [if_neg (by linarith)]
        unfold ROW_TOLERANCE
        unfold ROW_TOLERANCE at hq
        linarith [not_le.mp hq]
      refine ⟨r.avgHeight, ?_⟩
      rw [groupLoop_cons_far [] r x l hcond]
      simp only [List.nil_append]
      rw [groupLoop_acc l [r] _]
      rw [List.takeWhile_cons_of_neg hqb, List.dropWhile_cons_of_neg hqb]
      rw [groupLoop_cons_none]
      simp

/-- Helper: on a y-sorted list, the within-tolerance prefix is exactly the
within-tolerance filter, and the remainder is exactly the complement
filter. -/
theorem takeWhile_dropWhile_filter_withinTol (c : ℚ) :
    ∀ (s : List TextItem), s.Sorted leY →
      s.takeWhile (withinTol c) = s.filter (withinTol c) ∧
      s.dropWhile (withinTol c) = s.filter (fun x => !withinTol c x) := by
  intro s
  induction s with
  | nil => intro _; simp
  | cons a s ih =>
    intro hs
    obtain ⟨iht, ihd⟩ := ih hs.of_cons
    by_cases ha : withinTol c a = true
    · rw [List.takeWhile_cons_of_pos ha, List.dropWhile_cons_of_pos ha,
        List.filter_cons_of_pos ha,
        List.filter_cons_of_neg (p := fun x => !withinTol c x) (by simp [ha]),
        iht, ihd]
      exact ⟨rfl, rfl⟩
    · have hallfail : ∀ x ∈ s, ¬(withinTol c x = true) := by
        intro x hx hwx
        have hax : a.y ≤ x.y := List.rel_of_sorted_cons hs x hx
        unfold withinTol at ha hwx
        rw [decide_eq_true_eq] at hwx
        exact ha (decide_eq_true (by linarith))
      constructor
      · rw [List.takeWhile_cons_of_neg ha]
        symm
        rw [List.filter_eq_nil_iff]
        intro x hx
        rcases List.mem_cons.mp hx with rfl | hxs
        · exact ha
        · exact hallfail x hxs
      · rw [List.dropWhile_cons_of_neg ha,
          List.filter_cons_of_pos (p := fun x => !withinTol c x) (by simp [ha])]
        congr 1
        symm
        rw [List.filter_eq_self]
        intro x hx
        simp [hallfail x hx]

/-- Helper: row signatures of the grouping walk depend only on the fragment
multiset, for y-sorted inputs. -/
theorem walkSigs_perm : ∀ (n : ℕ) (s t : List TextItem), s.length ≤ n → s.Perm t →
    s.Sorted leY → t.Sorted leY →
    (groupIntoRowsLoop [] none s).map rowSig = (groupIntoRowsLoop [] none t).map rowSig := by
  intro n
  induction n with
  | zero =>
    intro s t hlen hperm _ _
    have hs : s = [] := List.length_eq_zero.mp (Nat.le_zero.mp hlen)
    subst hs
    have ht : t = [] := hperm.nil_eq.symm
    subst ht
    rfl
  | succ n ih =>
    intro s t hlen hperm hss hst
    cases s with
    | nil =>
      have ht : t = [] := hperm.nil_eq.symm
      subst ht
      rfl
    | cons it l =>
      cases t with
      | nil => exact absurd hperm.length_eq (by simp)
      | cons it2 l2 =>
        have hys : (it :: l).map (fun x => x.y) = (it2 :: l2).map (fun x => x.y) :=
          @List.eq_of_perm_of_sorted ℚ (· ≤ ·) inferInstance _ _
            (hperm.map (fun x => x.y))
            (List.pairwise_map.mpr hss) (List.pairwise_map.mpr hst)
        rw [List.map_cons, List.map_cons] at hys
        injection hys with hy0 hys2
        have hmem_s : ∀ x ∈ l, it.y ≤ x.y := fun x hx => List.rel_of_sorted_cons hss x hx
        have hmem_t : ∀ x ∈ l2, it2.y ≤ x.y := fun x hx => List.rel_of_sorted_cons hst x hx
        obtain ⟨a1, ha1⟩ := groupLoop_absorb l ⟨it.y, [it], it.height⟩ hmem_s
        obtain ⟨a2, ha2⟩ := groupLoop_absorb l2 ⟨it2.y, [it2], it2.height⟩ hmem_t
        dsimp only at ha1 ha2
        rw [groupLoop_cons_none, ha1, groupLoop_cons_none, ha2, List.map_cons, List.map_cons]
        obtain ⟨htake_s, hdrop_s⟩ :=
          takeWhile_dropWhile_filter_withinTol (it.y + ROW_TOLERANCE) l hss.of_cons
        obtain ⟨htake_t, hdrop_t⟩ :=
          takeWhile_dropWhile_filter_withinTol (it2.y + ROW_TOLERANCE) l2 hst.of_cons
        have hqit : withinTol (it.y + ROW_TOLERANCE) it = true := by
          unfold withinTol
          apply decide_eq_true
          unfold ROW_TOLERANCE
          linarith
        have hqit2 : withinTol (it2.y + ROW_TOLERANCE) it2 = true := by
          unfold withinTol
          apply decide_eq_true
          unfold ROW_TOLERANCE
          linarith
        have hchunkperm : (it :: l.filter (withinTol (it.y + ROW_TOLERANCE))).Perm
            (it2 :: l2.filter (withinTol (it2.y + ROW_TOLERANCE))) := by
          have h1 : it :: l.filter (withinTol (it.y + ROW_TOLERANCE)) =
              (it :: l).filter (withinTol (it.y + ROW_TOLERANCE)) := by
            rw [List.filter_cons_of_pos hqit]
          have h2 : it2 :: l2.filter (withinTol (it2.y + ROW_TOLERANCE)) =
              (it2 :: l2).filter (withinTol (it2.y + ROW_TOLERANCE)) := by
            rw [List.filter_cons_of_pos hqit2]
          rw [h1, h2, ← hy0]
          exact hperm.filter (withinTol (it.y + ROW_TOLERANCE))
        congr 1
        · unfold rowSig
          refine Prod.ext hy0 ?_
          show (((it :: l.takeWhile (withinTol (it.y + ROW_TOLERANCE))) : List TextItem) :
              Multiset TextItem) =
            ((it2 :: l2.takeWhile (withinTol (it2.y + ROW_TOLERANCE)) : List TextItem) :
              Multiset TextItem)
          rw [htake_s, htake_t]
          exact Multiset.coe_eq_coe.mpr hchunkperm
        · apply ih
          · have hsub : (l.dropWhile (withinTol (it.y + ROW_TOLERANCE))).length ≤ l.length :=
              (List.dropWhile_sublist _).length_le
            have hlen2 : l.length ≤ n := by
              have := hlen
              simp only [List.length_cons] at this
              omega
            omega
          · rw [hdrop_s, hdrop_t]
            have h1 : l.filter (fun x => !withinTol (it.y + ROW_TOLERANCE) x) =
                (it :: l).filter (fun x => !withinTol (it.y + ROW_TOLERANCE) x) := by
              rw [List.filter_cons_of_neg (by simp [hqit])]
            have h2 : l2.filter (fun x => !withinTol (it2.y + ROW_TOLERANCE) x) =
                (it2 :: l2).filter (fun x => !withinTol (it2.y + ROW_TOLERANCE) x) := by
              rw [List.filter_cons_of_neg (by simp [hqit2])]
            rw [h1, h2, ← hy0]
            exact hperm.filter (fun x => !withinTol (it.y + ROW_TOLERANCE) x)
          · exact hss.of_cons.sublist (List.dropWhile_sublist _)
          · exact hst.of_cons.sublist (List.dropWhile_sublist _)

/-- Helper: sorting a row's items left-to-right does not change its
signature. -/
theorem rowSig_sortX (r : Row) :
    rowSig { r with items := sortByX r.items } = rowSig r := by
  unfold rowSig sortByX
  refine Prod.ext rfl ?_
  exact Multiset.coe_eq_coe.mpr (List.perm_insertionSort leX r.items)

/-- Claim C9: grouping any permutation of a fragment list into rows yields
the same rows — the same per-row membership (as a multiset) in the same
top-to-bottom y order. -/
theorem claim_C9 (l l2 : List TextItem) (hperm : l.Perm l2) :
    rowSigs l = rowSigs l2 := by
  unfold rowSigs groupIntoRows
  rw [List.map_map, List.map_map]
  have hsig : ∀ rows : List Row,
      rows.map (rowSig ∘ fun r => { r with items := sortByX r.items }) = rows.map rowSig := by
    intro rows
    apply List.map_congr_left
    intro r _
    exact rowSig_sortX r
  rw [hsig, hsig]
  exact walkSigs_perm (sortByY l).length (sortByY l) (sortByY l2) le_rfl
    (((List.perm_insertionSort leY l).trans hperm).trans (List.perm_insertionSort leY l2).symm)
    (List.sorted_insertionSort leY l)
    (List.sorted_insertionSort leY l2)

/-- Claim C9 witness: two concrete permutations of the same fragments group
into identical row signatures. -/
theorem claim_C9_witness :
    ([mkItem (("u").toList) 0 0 5, mkItem (("v").toList) 3 20 5].Perm
      [mkItem (("v").toList) 3 20 5, mkItem (("u").toList) 0 0 5]) ∧
    rowSigs [mkItem (("u").toList) 0 0 5, mkItem (("v").toList) 3 20 5] =
      rowSigs [mkItem (("v").toList) 3 20 5, mkItem (("u").toList) 0 0 5] := by
  have hperm : ([mkItem (("u").toList) 0 0 5, mkItem (("v").toList) 3 20 5].Perm
      [mkItem (("v").toList) 3 20 5, mkItem (("u").toList) 0 0 5]) :=
    List.Perm.swap _ _ _
  exact ⟨hperm, claim_C9 _ _ hperm⟩

/-- Helper: flattening replicated empty lists gives the empty list. -/
theorem flatten_replicate_nil {α : Type} : ∀ r : ℕ,
    (List.replicate r ([] : List α)).flatten = [] := by
  intro r
  induction r with
  | zero => rfl
  | succ r ih => simp [List.replicate_succ, ih]

/-- Helper: prepending a list to its own r-fold element replication is a
permutation of the (r+1)-fold element replication. -/
theorem append_flatMap_replicate_perm {α : Type} (r : ℕ) :
    ∀ xs : List α, (xs ++ xs.flatMap (fun v => List.replicate r v)).Perm
      (xs.flatMap (fun v => List.replicate (r + 1) v)) := by
  intro xs
  induction xs with
  | nil => simp
  | cons v vs ih =>
    simp only [List.flatMap_cons, List.cons_append, List.replicate_succ]
    refine List.Perm.cons v ?_
    have h1 : (vs ++ (List.replicate r v ++ vs.flatMap (fun v => List.replicate r v))).Perm
        (List.replicate r v ++ (vs ++ vs.flatMap (fun v => List.replicate r v))) := by
      rw [← List.append_assoc, ← List.append_assoc]
      exact (List.perm_append_comm).append_right _
    refine h1.trans ?_
    exact (ih.append_left _)

/-- Helper: row-major and column-major enumerations of the same replicated
block are permutations of each other. -/
theorem flatten_replicate_perm {α : Type} (r : ℕ) (xs : List α) :
    (List.replicate r xs).flatten.Perm (xs.flatMap (fun v => List.replicate r v)) := by
  induction r with
  | zero => simp
  | succ r ih =>
    rw [List.replicate_succ, List.flatten_cons]
    exact (ih.append_left xs).trans (append_flatMap_replicate_perm r xs)

/-- Helper: a constant list is sorted. -/
theorem pairwise_le_replicate (r : ℕ) (v : ℚ) :
    (List.replicate r v).Pairwise (· ≤ ·) := by
  induction r with
  | zero => simp
  | succ r ih =>
    rw [List.replicate_succ]
    refine List.Pairwise.cons ?_ ih
    intro b hb
    rw [List.eq_of_mem_replicate hb]

/-- Helper: replicating each element of a sorted list keeps it sorted. -/
theorem sorted_flatMap_replicate (r : ℕ) :
    ∀ vals : List ℚ, vals.Sorted (· ≤ ·) →
      (vals.flatMap (fun v => List.replicate r v)).Sorted (· ≤ ·) := by
  intro vals
  induction vals with
  | nil => intro _; simp
  | cons v vs ih =>
    intro hs
    rw [List.flatMap_cons]
    rw [List.Sorted, List.pairwise_append]
    refine ⟨pairwise_le_replicate r v, ih hs.of_cons, ?_⟩
    intro a ha b hb
    rw [List.eq_of_mem_replicate ha]
    obtain ⟨w, hw, hbw⟩ := List.mem_flatMap.mp hb
    rw [List.eq_of_mem_replicate hbw]
    exact List.rel_of_sorted_cons hs w hw

/-- Helper: the scaled column positions are separated by gaps above the
cluster tolerance. -/
theorem chain_gap_scaled (n : ℕ) :
    List.Chain' (fun a b => a + 10 < b) ((List.range n).map (fun t : ℕ => (11 : ℚ) * t)) := by
  have hp : ((List.range n).map (fun t : ℕ => (11 : ℚ) * t)).Pairwise (fun a b => a + 10 < b) := by
    apply List.pairwise_map.mpr
    apply (List.pairwise_lt_range n).imp
    intro a b hab
    have h1 : (a : ℚ) + 1 ≤ (b : ℚ) := by exact_mod_cast hab
    nlinarith
  exact hp.chain'

/-- Helper: the scaled column positions are sorted. -/
theorem sorted_scaled_range (n : ℕ) :
    ((List.range n).map (fun t : ℕ => (11 : ℚ) * t)).Sorted (· ≤ ·) := by
  apply List.pairwise_map.mpr
  apply (List.pairwise_lt_range n).imp
  intro a b hab
  have h1 : (a : ℚ) ≤ (b : ℚ) := by exact_mod_cast Nat.le_of_lt hab
  linarith

/-- Helper: the cluster walk absorbs a run of equal positions into the
current cluster. -/
theorem clusterLoop_absorb_same (v : ℚ) : ∀ (k : ℕ) (cur : List ℚ) (acc : List (List ℚ))
    (rest : List ℚ),
    clusterLoop v cur acc (List.replicate k v ++ rest) =
      clusterLoop v (cur ++ List.replicate k v) acc rest := by
  intro k
  induction k with
  | zero => intro cur acc rest; simp
  | succ k ih =>
    intro cur acc rest
    rw [List.replicate_succ, List.cons_append]
    rw [show clusterLoop v cur acc (v :: (List.replicate k v ++ rest)) =
        clusterLoop v (cur ++ [v]) acc (List.replicate k v ++ rest) from by
      simp [clusterLoop]]
    rw [ih (cur ++ [v]) acc rest]
    rw [List.append_assoc]
    rfl

/-- Helper: on gap-separated replicated blocks the cluster walk emits one
cluster per block. -/
theorem clusterLoop_blocks (r : ℕ) (hr : 0 < r) :
    ∀ (vals : List ℚ) (prev : ℚ) (cur : List ℚ) (acc : List (List ℚ)),
      List.Chain' (fun a b => a + 10 < b) (prev :: vals) →
      clusterLoop prev cur acc (vals.flatMap (fun v => List.replicate r v)) =
        acc ++ cur :: vals.map (fun v => List.replicate r v) := by
  intro vals
  induction vals with
  | nil =>
    intro prev cur acc _
    simp [clusterLoop]
  | cons w vs ih =>
    intro prev cur acc hchain
    have hgap : prev + 10 < w := (List.chain'_cons.mp hchain).1
    have hchain2 : List.Chain' (fun a b => a + 10 < b) (w :: vs) :=
      (List.chain'_cons.mp hchain).2
    rw [List.flatMap_cons]
    obtain ⟨k, rfl⟩ : ∃ k, r = k + 1 := ⟨r - 1, (Nat.succ_pred_eq_of_pos hr).symm⟩
    rw [List.replicate_succ, List.cons_append]
    rw [show clusterLoop prev cur acc
        (w :: (List.replicate k w ++ vs.flatMap (fun v => List.replicate (k + 1) v))) =
        clusterLoop w [w] (acc ++ [cur])
          (List.replicate k w ++ vs.flatMap (fun v => List.replicate (k + 1) v)) from by
      simp [clusterLoop, not_le.mpr (by linarith : (10 : ℚ) < w - prev)]]
    rw [clusterLoop_absorb_same w k [w] (acc ++ [cur]) _]
    rw [ih w ([w] ++ List.replicate k w) (acc ++ [cur]) hchain2]
    simp [List.replicate_succ]

/-- Helper: the minimum of a constant non-empty cluster is its value. -/
theorem listMin_replicate_succ (k : ℕ) (v : ℚ) :
    listMin (List.replicate (k + 1) v) = v := by
  rw [List.replicate_succ]
  show (List.replicate k v).foldl min v = v
  induction k with
  | zero => rfl
  | succ k ih =>
    rw [List.replicate_succ]
    show (List.replicate k v).foldl min (min v v) = v
    rw [min_self]
    exact ih


/-- Helper: the gap-separation relation is transitive. -/
instance gapRelTrans : IsTrans ℚ (fun a b => a + 10 < b) :=
  ⟨fun a b c h1 h2 => by
    have h1b : a + 10 < b := h1
    have h2b : b + 10 < c := h2
    show a + 10 < c
    linarith⟩

/-- Helper: in a gap-separated boundary list with positive non-head
boundaries, the membership loop maps each boundary value to its own
index. -/
theorem findColIndexAux_self : ∀ (bs : List ℚ),
    List.Chain' (fun a b => a + 10 < b) bs →
    (∀ (i : ℕ) (b : ℚ), bs.get? (i + 1) = some b → b ≠ 0) →
    ∀ (j : ℕ) (b : ℚ), bs.get? j = some b → findColIndexAux b bs = some j := by
  intro bs
  induction bs with
  | nil =>
    intro _ _ j b hj
    simp at hj
  | cons b0 rest ih =>
    intro hchain hpos j b hj
    have hpair : (b0 :: rest).Pairwise (fun a b => a + 10 < b) :=
      List.chain'_iff_pairwise.mp hchain
    cases j with
    | zero =>
      rw [List.get?_cons_zero, Option.some_inj] at hj
      subst hj
      cases rest with
      | nil =>
        simp only [findColIndexAux]
        have h1 : decide (b0 ≥ b0 - 10) = true := decide_eq_true (by linarith)
        simp [h1]
      | cons b2 rest2 =>
        have hb2 : b2 ≠ 0 := hpos 0 b2 (by simp)
        have hgap : b0 + 10 < b2 :=
          List.rel_of_pairwise_cons hpair (List.mem_cons_self b2 rest2)
        simp only [findColIndexAux]
        rw [if_neg hb2]
        have h1 : decide (b0 ≥ b0 - 10) = true := decide_eq_true (by linarith)
        have h2 : decide (b0 < b2 - 10) = true := decide_eq_true (by linarith)
        simp [h1, h2]
    | succ j2 =>
      rw [List.get?_cons_succ] at hj
      have hmem : b ∈ rest := List.get?_mem hj
      have hb0b : b0 + 10 < b := List.rel_of_pairwise_cons hpair hmem
      have hrec := ih hchain.tail
        (fun i bb hbb => hpos (i + 1) bb (by simpa using hbb))
        j2 b hj
      cases rest with
      | nil => simp at hj
      | cons b2 rest2 =>
        have hb2 : b2 ≠ 0 := hpos 0 b2 (by simp)
        have hble : b2 ≤ b := by
          cases j2 with
          | zero =>
            rw [List.get?_cons_zero, Option.some_inj] at hj
            rw [hj]
          | succ j3 =>
            rw [List.get?_cons_succ] at hj
            have hmem2 : b ∈ rest2 := List.get?_mem hj
            have hpair2 : (b2 :: rest2).Pairwise (fun a b => a + 10 < b) := hpair.of_cons
            have hrel := List.rel_of_pairwise_cons hpair2 hmem2
            linarith
        have h2 : decide (b < b2 - 10) = false := by
          rw [decide_eq_false_iff_not]
          intro hcontra
          linarith
        have hstep : findColIndexAux b (b0 :: b2 :: rest2) =
            if (decide (b ≥ b0 - 10) && (if b2 = 0 then true else decide (b < b2 - 10))) = true
            then some 0
            else (findColIndexAux b (b2 :: rest2)).map (· + 1) := rfl
        rw [hstep, if_neg hb2, h2, Bool.and_false]
        rw [if_neg (by simp : ¬(false = true))]
        rw [hrec]
        rfl

/-- Helper: the synthetic items of one row have one item per cell. -/
theorem syntheticItemsAux_length (scale : ℚ) (y : ℚ) : ∀ (cells : List Str) (j : ℕ),
    (syntheticItemsAux scale y j cells).length = cells.length := by
  intro cells
  induction cells with
  | nil => intro j; rfl
  | cons c cs ih =>
    intro j
    simp [syntheticItemsAux, ih (j + 1)]

/-- Helper: the x positions of one synthetic row are the scaled column
indices. -/
theorem syntheticItemsAux_x (scale : ℚ) (y : ℚ) : ∀ (cells : List Str) (j : ℕ),
    (syntheticItemsAux scale y j cells).map (fun it => it.x) =
      (List.range cells.length).map (fun t : ℕ => scale * (((j + t : ℕ) : ℚ))) := by
  intro cells
  induction cells with
  | nil => intro j; rfl
  | cons c cs ih =>
    intro j
    rw [show syntheticItemsAux scale y j (c :: cs) =
        syntheticItem scale j y c :: syntheticItemsAux scale y (j + 1) cs from rfl]
    rw [List.map_cons, ih (j + 1), List.length_cons, List.range_succ_eq_map, List.map_cons,
      List.map_map]
    congr 1
    apply List.map_congr_left
    intro t _
    show scale * (((j + 1 + t : ℕ) : ℚ)) = scale * (((j + (t + 1) : ℕ) : ℚ))
    congr 1
    push_cast
    ring

/-- Helper: the x positions of one synthetic row starting at column 0. -/
theorem syntheticItemsAux_x_zero (scale : ℚ) (y : ℚ) (cells : List Str) :
    (syntheticItemsAux scale y 0 cells).map (fun it => it.x) =
      (List.range cells.length).map (fun t : ℕ => scale * (t : ℚ)) := by
  rw [syntheticItemsAux_x scale y cells 0]
  apply List.map_congr_left
  intro t _
  norm_num

/-- Helper: all x positions of the synthetic rows of a rectangular grid,
row-major. -/
theorem syntheticRows_positions (n : ℕ) : ∀ (grid : List (List Str)) (i : ℕ),
    (∀ row ∈ grid, row.length = n) →
    (syntheticRowsAux 11 i grid).flatMap (fun row => row.items.map (fun it => it.x)) =
      (List.replicate grid.length ((List.range n).map (fun t : ℕ => (11 : ℚ) * t))).flatten := by
  intro grid
  induction grid with
  | nil => intro i _; rfl
  | cons cells rest ih =>
    intro i hrect
    rw [show syntheticRowsAux 11 i (cells :: rest) =
        ⟨(i : ℚ), syntheticItemsAux 11 (i : ℚ) 0 cells, 0⟩ ::
          syntheticRowsAux 11 (i + 1) rest from rfl]
    rw [List.flatMap_cons, ih (i + 1) (fun row hr => hrect row (List.mem_cons_of_mem cells hr)),
      List.length_cons, List.replicate_succ, List.flatten_cons]
    congr 1
    rw [syntheticItemsAux_x_zero, hrect cells (List.mem_cons_self cells rest)]

/-- Helper: the column boundaries detected from the synthetic rows of a
non-empty rectangular grid are exactly the scaled column indices. -/
theorem roundTrip_boundaries (n : ℕ) (hn : 0 < n) (grid : List (List Str)) (hg : grid ≠ [])
    (hrect : ∀ row ∈ grid, row.length = n) :
    detectColumnBoundariesForRegion (syntheticRowsAux 11 0 grid) =
      (List.range n).map (fun t : ℕ => (11 : ℚ) * t) := by
  have hfst : ((syntheticRowsAux 11 0 grid).flatMap
      (fun row => row.items.map (fun item => (item.x, item.x + item.width)))).map
        (fun p => p.1) =
      (List.replicate grid.length ((List.range n).map (fun t : ℕ => (11 : ℚ) * t))).flatten := by
    rw [List.map_flatMap]
    rw [show (fun (row : Row) => (row.items.map
        (fun item => (item.x, item.x + item.width))).map (fun p => p.1)) =
        (fun (row : Row) => row.items.map (fun it => it.x)) from by
      funext row
      rw [List.map_map]
      rfl]
    exact syntheticRows_positions n grid 0 hrect
  have hlenpos : 0 < ((syntheticRowsAux 11 0 grid).flatMap
      (fun row => row.items.map (fun item => (item.x, item.x + item.width)))).length := by
    cases grid with
    | nil => exact absurd rfl hg
    | cons cells rest =>
      rw [show syntheticRowsAux 11 0 (cells :: rest) =
          ⟨(0 : ℚ), syntheticItemsAux 11 (0 : ℚ) 0 cells, 0⟩ ::
            syntheticRowsAux 11 1 rest from rfl]
      rw [List.flatMap_cons, List.length_append, List.length_map, syntheticItemsAux_length]
      have hcl : cells.length = n := hrect cells (List.mem_cons_self cells rest)
      omega
  simp only [detectColumnBoundariesForRegion]
  rw [if_neg (by omega)]
  have hr : 0 < grid.length := by
    cases grid with
    | nil => exact absurd rfl hg
    | cons cells rest => simp
  have hvalsne : ((List.range n).map (fun t : ℕ => (11 : ℚ) * t)) ≠ [] := by
    intro hc
    have := congrArg List.length hc
    simp at this
    omega
  have hsortP : sortRat (((syntheticRowsAux 11 0 grid).flatMap
      (fun row => row.items.map (fun item => (item.x, item.x + item.width)))).map
        (fun p => p.1)) =
      ((List.range n).map (fun t : ℕ => (11 : ℚ) * t)).flatMap
        (fun v => List.replicate grid.length v) := by
    apply @List.eq_of_perm_of_sorted ℚ (· ≤ ·) inferInstance
    · refine (List.perm_insertionSort _ _).trans ?_
      rw [hfst]
      exact flatten_replicate_perm grid.length _
    · exact List.sorted_insertionSort _ _
    · exact sorted_flatMap_replicate grid.length _ (sorted_scaled_range n)
  -- evaluate the clustering on the sorted block list
  have hclusters : clusterXPositions (((syntheticRowsAux 11 0 grid).flatMap
      (fun row => row.items.map (fun item => (item.x, item.x + item.width)))).map
        (fun p => p.1)) =
      (List.range n).map (fun t : ℕ => (11 : ℚ) * t) := by
    cases hP : ((syntheticRowsAux 11 0 grid).flatMap
        (fun row => row.items.map (fun item => (item.x, item.x + item.width)))).map
          (fun p => p.1) with
    | nil =>
      have := congrArg List.length hP
      rw [List.length_map, List.length_nil] at this
      omega
    | cons p ps =>
      cases hV : (List.range n).map (fun t : ℕ => (11 : ℚ) * t) with
      | nil => exact absurd hV hvalsne
      | cons v0 vs =>
        obtain ⟨k, hk⟩ : ∃ k, grid.length = k + 1 :=
          ⟨grid.length - 1, (Nat.succ_pred_eq_of_pos hr).symm⟩
        have hchain : List.Chain' (fun a b => a + 10 < b) (v0 :: vs) := by
          rw [← hV]
          exact chain_gap_scaled n
        have hsort2 : sortRat (p :: ps) =
            v0 :: (List.replicate k v0 ++ vs.flatMap (fun v => List.replicate (k + 1) v)) := by
          rw [← hP, hsortP, hV, hk, List.flatMap_cons, List.replicate_succ, List.cons_append]
        show (match sortRat (p :: ps) with
          | [] => []
          | s :: rest => (clusterLoop s [s] [] rest).map listMin) = v0 :: vs
        rw [hsort2]
        show ((clusterLoop v0 [v0] []
            (List.replicate k v0 ++ vs.flatMap (fun v => List.replicate (k + 1) v))).map
              listMin) = v0 :: vs
        rw [clusterLoop_absorb_same v0 k [v0] [] _]
        rw [clusterLoop_blocks (k + 1) (Nat.succ_pos k) vs v0 ([v0] ++ List.replicate k v0)
          [] hchain]
        rw [List.nil_append, List.map_cons]
        congr 1
        · rw [show ([v0] ++ List.replicate k v0) = List.replicate (k + 1) v0 from by
            rw [List.replicate_succ]
            rfl]
          exact listMin_replicate_succ k v0
        · rw [List.map_map]
          rw [show (listMin ∘ fun v => List.replicate (k + 1) v) = id from by
            funext v
            exact listMin_replicate_succ k v]
          exact List.map_id vs
  rw [hclusters]
  exact List.Sorted.insertionSort_eq (sorted_scaled_range n)

/-- Helper: on the scaled-range boundary list, the first-match column search
finds each boundary at its own index. -/
theorem findCol_scaled (n : ℕ) (j : ℕ) (hj : j < n) :
    findColIndexAux ((11 : ℚ) * (j : ℚ)) ((List.range n).map (fun s : ℕ => (11 : ℚ) * s)) =
      some j := by
  apply findColIndexAux_self _ (chain_gap_scaled n)
  · intro i b hib
    rw [List.get?_map] at hib
    cases h2 : (List.range n).get? (i + 1) with
    | none =>
      rw [h2] at hib
      exact absurd hib (by simp)
    | some m =>
      obtain ⟨hlt, _⟩ := List.get?_eq_some.mp h2
      rw [List.length_range] at hlt
      have hm : i + 1 = m := Option.some_inj.mp ((List.get?_range hlt).symm.trans h2)
      rw [h2] at hib
      rw [Option.map_some'] at hib
      have hb : (11 : ℚ) * (m : ℚ) = b := Option.some_inj.mp hib
      rw [← hb, ← hm]
      have hpos : (0 : ℚ) < ((i + 1 : ℕ) : ℚ) := by exact_mod_cast Nat.succ_pos i
      push_cast
      push_cast at hpos
      nlinarith
  · rw [List.get?_map, List.get?_range hj]
    rfl

/-- Helper: the synthetic fragments of one row are already sorted by x. -/
theorem synthetic_sorted (y : ℚ) (cells : List Str) :
    sortByX (syntheticItemsAux 11 y 0 cells) = syntheticItemsAux 11 y 0 cells := by
  show List.insertionSort leX (syntheticItemsAux 11 y 0 cells) = syntheticItemsAux 11 y 0 cells
  apply List.Sorted.insertionSort_eq
  have h1 : ((syntheticItemsAux 11 y 0 cells).map (fun it => it.x)).Pairwise (· ≤ ·) := by
    rw [syntheticItemsAux_x_zero]
    exact sorted_scaled_range cells.length
  exact (@List.pairwise_map TextItem ℚ (fun it => it.x) (· ≤ ·)
    (syntheticItemsAux 11 y 0 cells)).mp h1

/-- Helper: folding the assigner over one synthetic row fills each cell with
its own fragment, extending the already-filled prefix. -/
theorem assign_fold_fill (n : ℕ) (y : ℚ) :
    ∀ (cells : List Str) (j : ℕ) (pre : List Str),
    pre.length = j →
    j + cells.length ≤ n →
    (syntheticItemsAux 11 y j cells).foldl
        (assignItemStep ((List.range n).map (fun s : ℕ => (11 : ℚ) * s)))
        (pre ++ List.replicate cells.length []) = pre ++ cells := by
  intro cells
  induction cells with
  | nil =>
    intro j pre _ _
    simp [syntheticItemsAux]
  | cons c cs ih =>
    intro j pre hj hle
    have hjlt : j < n := by
      simp only [List.length_cons] at hle
      omega
    have hgetD : (pre ++ ([] :: List.replicate cs.length ([] : Str))).getD j [] = [] := by
      rw [List.getD_append_right pre _ [] j (le_of_eq hj), hj, Nat.sub_self]
      rfl
    have hset : (pre ++ ([] :: List.replicate cs.length ([] : Str))).set j c =
        (pre ++ [c]) ++ List.replicate cs.length [] := by
      rw [List.set_append]
      rw [if_neg (by omega)]
      rw [hj, Nat.sub_self, List.set_cons_zero]
      simp
    have hstep : assignItemStep ((List.range n).map (fun s : ℕ => (11 : ℚ) * s))
        (pre ++ ([] :: List.replicate cs.length [])) (syntheticItem 11 j y c) =
        (pre ++ [c]) ++ List.replicate cs.length [] := by
      simp only [assignItemStep, syntheticItem]
      rw [findCol_scaled n j hjlt]
      simp only [Int.toNat_natCast]
      rw [if_pos ⟨Int.natCast_nonneg j, by
        rw [List.length_append, List.length_cons, List.length_replicate]
        omega⟩]
      rw [hgetD]
      rw [if_neg (by simp)]
      exact hset
    rw [show syntheticItemsAux 11 y j (c :: cs) =
        syntheticItem 11 j y c :: syntheticItemsAux 11 y (j + 1) cs from rfl]
    rw [List.foldl_cons, List.length_cons, List.replicate_succ, hstep]
    rw [ih (j + 1) (pre ++ [c]) (by simp [hj]) (by
      simp only [List.length_cons] at hle
      omega)]
    simp

/-- Helper: one synthetic row round-trips through the assigner to its own
cells when the grid row has exactly one fragment per boundary. -/
theorem roundTrip_row (n : ℕ) (y : ℚ) (cells : List Str) (hlen : cells.length = n)
    (htrim : ∀ c ∈ cells, jsTrim c = c) :
    assignItemsToColumns (syntheticItemsAux 11 y 0 cells)
        ((List.range n).map (fun s : ℕ => (11 : ℚ) * s)) = cells := by
  simp only [assignItemsToColumns]
  rw [show sortByX (syntheticItemsAux 11 y 0 cells) = syntheticItemsAux 11 y 0 cells from
    synthetic_sorted y cells]
  rw [show ((List.range n).map (fun s : ℕ => (11 : ℚ) * s)).length = n from by
    rw [List.length_map, List.length_range]]
  rw [show List.replicate n ([] : Str) = [] ++ List.replicate cells.length [] from by
    rw [hlen, List.nil_append]]
  rw [assign_fold_fill n y cells 0 [] rfl (by omega)]
  rw [List.nil_append]
  rw [List.map_congr_left htrim]
  exact List.map_id' cells

/-- Helper: mapping the assigner over all synthetic rows of a rectangular
grid reproduces the grid. -/
theorem roundTrip_rows (n : ℕ) :
    ∀ (grid : List (List Str)) (i : ℕ),
    (∀ row ∈ grid, row.length = n) →
    (∀ row ∈ grid, ∀ c ∈ row, jsTrim c = c) →
    (syntheticRowsAux 11 i grid).map
        (fun r => assignItemsToColumns r.items
          ((List.range n).map (fun s : ℕ => (11 : ℚ) * s))) = grid := by
  intro grid
  induction grid with
  | nil => intro i _ _; rfl
  | cons cells rest ih =>
    intro i hrect htrim
    rw [show syntheticRowsAux 11 i (cells :: rest) =
        ⟨(i : ℚ), syntheticItemsAux 11 (i : ℚ) 0 cells, 0⟩ ::
          syntheticRowsAux 11 (i + 1) rest from rfl]
    rw [List.map_cons]
    congr 1
    · exact roundTrip_row n (i : ℚ) cells (hrect cells (List.mem_cons_self cells rest))
        (htrim cells (List.mem_cons_self cells rest))
    · exact ih (i + 1) (fun row hr => hrect row (List.mem_cons_of_mem cells hr))
        (fun row hr => htrim row (List.mem_cons_of_mem cells hr))

/-- C2 (amended): for a non-empty rectangular grid whose cells are already
trimmed, feeding the grid's rows back through column boundary detection and
cell assignment with one fragment per cell at x = 11 · (column index) — a
spacing wider than the 10-unit cluster gap — reproduces the identical grid. -/
theorem claim_C2_amended (grid : List (List Str)) (n : ℕ) (hn : 0 < n) (hg : grid ≠ [])
    (hrect : ∀ row ∈ grid, row.length = n)
    (htrim : ∀ row ∈ grid, ∀ c ∈ row, jsTrim c = c) :
    roundTripGrid 11 grid = grid := by
  simp only [roundTripGrid]
  rw [roundTrip_boundaries n hn grid hg hrect]
  exact roundTrip_rows n grid 0 hrect htrim

/-- Witness for the amended C2: the 2×2 grid [["a","b"],["c","d"]] at scale
11 round-trips to itself. -/
theorem claim_C2_amended_witness :
    roundTripGrid 11 [[("a").toList, ("b").toList], [("c").toList, ("d").toList]] =
      [[("a").toList, ("b").toList], [("c").toList, ("d").toList]] :=
  claim_C2_amended [[("a").toList, ("b").toList], [("c").toList, ("d").toList]] 2
    (by decide) (by decide) (by decide) (by decide)
